import Mathlib

/-!
Verification of the connection dispatcher, HTTP/1.1 codec, HTTP/2 engine,
WebSocket frame codec, TLS acceptor and worker pool of a multi-protocol
web server, by shallow embedding of the C++ sources into Lean.

Strings from the wire are modelled as `List Char`; machine-integer
arithmetic (`size_t`, `uint64_t`) is modelled on `Nat` with an explicit
`% 2^64` at the points where the C++ computation can wrap.  Fallible C++
code (functions that can throw) is modelled with `Except`.
-/

namespace WebServerModel

/-- Byte strings / `std::string` values are modelled as lists of characters. -/
abbrev Str := List Char

/-- The C locale whitespace class used by `std::istream` extraction and by
`isspace` inside `strtoul`: space, tab, newline, vertical tab, form feed,
carriage return. -/
def wsChar (c : Char) : Bool :=
  c = ' ' || c = '\t' || c = '\n' || c = '\x0b' || c = '\x0c' || c = '\r'

/-- Model of `::toupper` on the ASCII range (the only range the server feeds it). -/
def cToUpper (c : Char) : Char :=
  if 'a' ≤ c ∧ c ≤ 'z' then Char.ofNat (c.toNat - 32) else c

/-- Model of `::tolower` on the ASCII range. -/
def cToLower (c : Char) : Char :=
  if 'A' ≤ c ∧ c ≤ 'Z' then Char.ofNat (c.toNat + 32) else c

/-- ASCII letter test (used only to state well-formedness of methods). -/
def asciiAlpha (c : Char) : Bool :=
  ('A' ≤ c && c ≤ 'Z') || ('a' ≤ c && c ≤ 'z')

/-- ASCII upper-case letter test. -/
def upperAlpha (c : Char) : Bool := 'A' ≤ c && c ≤ 'Z'

/-- `std::getline(stream, line, d)` driven to completion: splits at `d`,
the delimiter is consumed and not stored, a trailing delimiter does not
produce a trailing empty line, and an empty input yields no lines. -/
def splitDelim (d : Char) : Str → List Str
  | [] => []
  | c :: cs =>
    if c = d then [] :: splitDelim d cs
    else
      match splitDelim d cs with
      | [] => [[c]]
      | l :: ls => (c :: l) :: ls

/-- `HttpRequest::parse` strips a trailing carriage return from each line:
`if (!line.empty() && line.back() == '\r') line.pop_back();`. -/
def stripCR (l : Str) : Str :=
  match l.getLast? with
  | some c => if c = '\r' then l.dropLast else l
  | none => l

/-- `std::istringstream` extraction of all whitespace-separated tokens of a line
(`iss >> tok` repeated): maximal runs of non-whitespace characters. -/
def tokens : Str → List Str
  | [] => []
  | [c] => if wsChar c then [] else [[c]]
  | c :: c2 :: cs =>
    if wsChar c then tokens (c2 :: cs)
    else if wsChar c2 then [c] :: tokens cs
    else
      match tokens (c2 :: cs) with
      | [] => [[c]]
      | t :: ts => (c :: t) :: ts

/-- `HttpRequest::trim`: strip leading and trailing spaces (only `' '`,
per `find_first_not_of(' ')` / `find_last_not_of(' ')` in the source). -/
def trim (s : Str) : Str :=
  ((s.dropWhile (· = ' ')).reverse.dropWhile (· = ' ')).reverse

/-- `std::map<std::string,std::string>` assignment `m[k] = v`:
replace the value when the key is present, otherwise insert. -/
def mapStore : List (Str × Str) → Str → Str → List (Str × Str)
  | [], k, v => [(k, v)]
  | (k0, v0) :: rest, k, v =>
    if k0 = k then (k0, v) :: rest else (k0, v0) :: mapStore rest k v

/-- `std::map::find` on the same representation. -/
def mapFind? : List (Str × Str) → Str → Option Str
  | [], _ => none
  | (k0, v0) :: rest, k => if k0 = k then some v0 else mapFind? rest k

/-- A single hexadecimal digit, as accepted by `strtol` with base 16. -/
def hexVal? (c : Char) : Option Nat :=
  if '0' ≤ c ∧ c ≤ '9' then some (c.toNat - '0'.toNat)
  else if 'a' ≤ c ∧ c ≤ 'f' then some (c.toNat - 'a'.toNat + 10)
  else if 'A' ≤ c ∧ c ≤ 'F' then some (c.toNat - 'A'.toNat + 10)
  else none

/-- Value of a list of hex digits (most significant first). -/
def hexNat (ds : List Nat) : Nat := ds.foldl (fun a d => a * 16 + d) 0

/-- Leading hex digits of a string. -/
def leadHexDigits : Str → List Nat
  | [] => []
  | c :: cs =>
    match hexVal? c with
    | some d => d :: leadHexDigits cs
    | none => []

/-- Model of `std::stoi(s, nullptr, 16)` as called from `url_decode` (its
argument is always a 2-character substring, so overflow cannot occur):
skip whitespace, optional sign, optional `0x` prefix when followed by a hex
digit, then hex digits; throws `std::invalid_argument` (modelled as
`.error ()`) when no digits can be consumed. -/
def stoi16E (s : Str) : Except Unit Int :=
  let s1 := s.dropWhile wsChar
  let (neg, s2) : Bool × Str :=
    match s1 with
    | '-' :: r => (true, r)
    | '+' :: r => (false, r)
    | r => (false, r)
  let s3 :=
    match s2 with
    | '0' :: x :: r =>
      if (x = 'x' ∨ x = 'X') ∧ (r.head?.bind hexVal?).isSome then r else s2
    | r => r
  let ds := leadHexDigits s3
  if ds = [] then .error ()
  else .ok ((if neg then -1 else 1) * (hexNat ds : Int))

/-- `HttpRequest::url_decode`: `%XX` hex decoding (only when two characters
follow the `%`), `+` becomes a space, everything else copied.  The
`std::stoi` call can throw on non-hex characters, so the result is an
`Except`.  The `static_cast<char>` of the decoded integer is modelled as
reduction modulo 256. -/
def url_decode : Str → Except Unit Str
  | [] => .ok []
  | '%' :: h1 :: h2 :: rest => do
    let v ← stoi16E [h1, h2]
    let tail ← url_decode rest
    .ok (Char.ofNat (v % 256).toNat :: tail)
  | '+' :: rest => do
    let tail ← url_decode rest
    .ok (' ' :: tail)
  | c :: rest => do
    let tail ← url_decode rest
    .ok (c :: tail)

instance {ε α : Type} [DecidableEq ε] [DecidableEq α] : DecidableEq (Except ε α) :=
  fun x y =>
    match x, y with
    | .ok a, .ok b =>
      if h : a = b then .isTrue (congrArg Except.ok h)
      else .isFalse fun hh => h (Except.ok.inj hh)
    | .error a, .error b =>
      if h : a = b then .isTrue (congrArg Except.error h)
      else .isFalse fun hh => h (Except.error.inj hh)
    | .ok _, .error _ => .isFalse fun hh => Except.noConfusion hh
    | .error _, .ok _ => .isFalse fun hh => Except.noConfusion hh

/-- The state of an `HttpRequest` object.  A freshly constructed object has
all string fields empty and `valid = false` (`HttpRequest::HttpRequest`). -/
structure HttpRequest where
  method : Str := []
  path : Str := []
  version : Str := []
  headers : List (Str × Str) := []
  query_params : List (Str × Str) := []
  body : Str := []
  valid : Bool := false
deriving DecidableEq

/-- `HttpRequest::parse_query_parameters`: pairs `k=v` of the query string,
split at `&` by `getline`, with both sides url-decoded; pairs without `=`
are skipped. -/
def parsePairs (m : List (Str × Str)) : List Str → Except Unit (List (Str × Str))
  | [] => .ok m
  | pair :: rest =>
    let pre := pair.takeWhile (· ≠ '=')
    if pre.length = pair.length then parsePairs m rest
    else do
      let k ← url_decode pre
      let v ← url_decode (pair.drop (pre.length + 1))
      parsePairs (mapStore m k v) rest

/-- `HttpRequest::parse_query_parameters`: split the request target at the
first `?`; the part before it becomes `path`, the rest is parsed into
`query_params`. -/
def parse_query_parameters (r : HttpRequest) (pwq : Str) : Except Unit HttpRequest :=
  let pre := pwq.takeWhile (· ≠ '?')
  if pre.length = pwq.length then .ok { r with path := pwq }
  else do
    let qp ← parsePairs r.query_params (splitDelim '&' (pwq.drop (pre.length + 1)))
    .ok { r with path := pre, query_params := qp }

/-- `HttpRequest::parse_request_line`.  `iss >> method >> path_with_query
or version` assigns the members one token at a time, so on extraction
failure the members already read keep their new values while the rest are
left untouched (the failing extraction does not erase its target because
the stream sentry fails first); the uppercase transform runs only after a
fully successful extraction.  Returns the updated object and the C++
return value. -/
def parse_request_line (r : HttpRequest) (line : Str) : Except Unit (HttpRequest × Bool) :=
  match tokens line with
  | [] => .ok (r, false)
  | [m] => .ok ({ r with method := m }, false)
  | [m, _] => .ok ({ r with method := m }, false)
  | m :: pwq :: v :: _ => do
    let r1 := { r with method := m.map cToUpper, version := v }
    let r2 ← parse_query_parameters r1 pwq
    if r2.method = [] ∨ r2.path = [] ∨ r2.version = [] then .ok (r2, false)
    else if r2.path.head? ≠ some '/' then .ok (r2, false)
    else .ok (r2, true)

/-- `HttpRequest::parse_header_line`: reject a line without a colon or with
an empty (after space-trimming) name before the colon; store the
lower-cased key with the trimmed value. -/
def parse_header_line (r : HttpRequest) (line : Str) : HttpRequest × Bool :=
  let pre := line.takeWhile (· ≠ ':')
  if pre.length = line.length then (r, false)
  else if pre.length = 0 then (r, false)
  else
    let key := trim pre
    let value := trim (line.drop (pre.length + 1))
    if key = [] then (r, false)
    else ({ r with headers := mapStore r.headers (key.map cToLower) value }, true)

/-- The final `valid = !method.empty() && !path.empty() && !version.empty()`
assignment of `HttpRequest::parse`. -/
def setValid (r : HttpRequest) : HttpRequest × Bool :=
  let v : Bool := !r.method.isEmpty && !r.path.isEmpty && !r.version.isEmpty
  ({ r with valid := v }, v)

/-- Body reconstruction of `HttpRequest::parse`: each remaining `getline`
line is appended followed by `"\n"`, and the final `"\n"` is removed. -/
def joinLines : List Str → Str
  | [] => []
  | [l] => l
  | l :: rest => l ++ '\n' :: joinLines rest

/-- The header-and-body phase of the `while (std::getline(...))` loop of
`HttpRequest::parse`: each line is CR-stripped; an empty line ends the
headers and everything after it becomes the body; a malformed header line
makes `parse` return `false` immediately; running out of lines falls
through to the `valid` computation with no body. -/
def parseHeaderLoop (r : HttpRequest) : List Str → HttpRequest × Bool
  | [] => setValid r
  | line :: rest =>
    let l := stripCR line
    if l = [] then setValid { r with body := joinLines rest }
    else
      match parse_header_line r l with
      | (r1, true) => parseHeaderLoop r1 rest
      | (r1, false) => (r1, false)

/-- `HttpRequest::parse`, acting on a freshly constructed object (every
call site in the server constructs `HttpRequest request;` immediately
before calling `parse`).  The result is the final object state together
with the C++ return value; `.error` models an exception propagating out of
the `std::stoi` call inside `url_decode`. -/
def HttpRequest.parse (raw : Str) : Except Unit (HttpRequest × Bool) :=
  if raw = [] then .ok ({}, false)
  else
    match splitDelim '\n' raw with
    | [] => .ok (setValid {})
    | line :: rest => do
      let (r1, ok) ← parse_request_line {} (stripCR line)
      if ok then .ok (parseHeaderLoop r1 rest) else .ok (r1, false)

/-- `HttpRequest::get_header`: lower-case the queried name, look it up,
empty string when absent. -/
def get_header (r : HttpRequest) (name : Str) : Str :=
  match mapFind? r.headers (name.map cToLower) with
  | some v => v
  | none => []

/-- Decimal digit test for `strtoul` with base 10. -/
def decDigit (c : Char) : Bool := '0' ≤ c && c ≤ '9'

/-- Value of a list of decimal digit characters (most significant first). -/
def decNat (ds : Str) : Nat := ds.foldl (fun a d => a * 10 + (d.toNat - '0'.toNat)) 0

/-- Model of `std::stoul(s)` (base 10, 64-bit `unsigned long`): skip
whitespace, optional sign, then decimal digits.  No digits throws
`std::invalid_argument`; a magnitude above `2^64 - 1` throws
`std::out_of_range`; a negative number is wrapped in unsigned arithmetic.
Both exceptions are modelled as `.error ()`. -/
def stoulE (s : Str) : Except Unit Nat :=
  let s1 := s.dropWhile wsChar
  let (neg, s2) : Bool × Str :=
    match s1 with
    | '-' :: r => (true, r)
    | '+' :: r => (false, r)
    | r => (false, r)
  let ds := s2.takeWhile decDigit
  if ds = [] then .error ()
  else
    let v := decNat ds
    if v > 2 ^ 64 - 1 then .error ()
    else .ok (if neg then (2 ^ 64 - v) % 2 ^ 64 else v)

/-- `HttpRequest::get_content_length`: absent header gives 0, and the
`try { return std::stoul(...); } catch (...) { return 0; }` turns every
conversion exception into 0. -/
def get_content_length (r : HttpRequest) : Nat :=
  let length_header := get_header r ("content-length".toList)
  if length_header = [] then 0
  else
    match stoulE length_header with
    | .error _ => 0
    | .ok n => n

/-- `WebServer::should_keep_alive`: keep-alive globally enabled, version
exactly `HTTP/1.1`, and no `Connection: close` header. -/
def should_keep_alive (keep_alive_enabled : Bool) (r : HttpRequest) : Bool :=
  if !keep_alive_enabled then false
  else if r.version ≠ "HTTP/1.1".toList then false
  else if get_header r ("connection".toList) = "close".toList then false
  else true

/-! ### Connection dispatcher (`WebServer::handle_client_task`) -/

/-- The 24-byte HTTP/2 connection preface literal `HTTP2_CONNECTION_PREFACE`. -/
def HTTP2_CONNECTION_PREFACE : Str := "PRI * HTTP/2.0\r\n\r\nSM\r\n\r\n".toList

/-- `std::string(buffer)` on a NUL-terminated `char` buffer: the C-string
constructor stops at the first NUL byte. -/
def truncAtNul (s : Str) : Str := s.takeWhile (· ≠ '\x00')

/-- Substring test for the `"\r\n\r\n"` header terminator
(`headers_data.find("\r\n\r\n") != npos`). -/
def containsCRLFCRLF : Str → Bool
  | [] => false
  | c :: cs => List.isPrefixOf ("\r\n\r\n".toList) (c :: cs) || containsCRLFCRLF cs

/-- The `while (headers_data.find("\r\n\r\n") == npos)` read loop of
`handle_client_task`: each further `recv` chunk is converted through the
NUL-truncating `std::string` constructor and appended; the loop stops when
the terminator is present, when `recv` returns no data (the chunk list is
exhausted), or right after the accumulated data exceeds 8192 bytes. -/
def accumulateHeaders (acc : Str) : List Str → Str
  | [] => acc
  | chunk :: rest =>
    if containsCRLFCRLF acc then acc
    else
      let acc1 := acc ++ truncAtNul chunk
      if acc1.length > 8192 then acc1
      else accumulateHeaders acc1 rest

/-- What `handle_client_task` does with one accepted cleartext connection. -/
inductive ClientTaskOutcome where
  | http2Route (initialData : Str)
  | http11Parse (headersData : Str) (result : Except Unit (HttpRequest × Bool))
  | closedWithoutRequest

/-- One iteration of `WebServer::handle_client_task` (the per-connection
handler with HTTP/2 preface detection, `server.cpp`): `firstRecv` is the
byte sequence returned by the initial `recv` (nonempty, at most 4095
bytes), `moreChunks` are the byte sequences later `recv` calls would
return.  If HTTP/2 is enabled and the first 24 raw bytes equal the
connection preface, the connection is handed to
`handle_http2_connection(client_socket, buffer, initial_bytes)` with all
already-read bytes as initial data.  Otherwise the data is accumulated
until `"\r\n\r\n"` and parsed as an HTTP/1.1 request — unless the
accumulated data is empty, in which case the loop breaks and the
connection is closed without parsing. -/
def handle_client_task (http2_enabled : Bool) (firstRecv : Str)
    (moreChunks : List Str) : ClientTaskOutcome :=
  if http2_enabled && decide (24 ≤ firstRecv.length)
      && decide (firstRecv.take 24 = HTTP2_CONNECTION_PREFACE) then
    .http2Route firstRecv
  else
    let headers_data := accumulateHeaders (truncAtNul firstRecv) moreChunks
    if headers_data = [] then .closedWithoutRequest
    else .http11Parse headers_data (HttpRequest.parse headers_data)

/-! ### TLS acceptor (`WebServer::handle_tls_connection`) -/

/-- Possible outcomes of `handle_tls_connection`.  The two `routed…`
outcomes are what the specification requires after a successful ALPN
negotiation; they are included so that it can be stated that the source
never produces them. -/
inductive TlsOutcome where
  | sslCreateFailed
  | handshakeFailed
  | loggedH2NotImplementedThenClosed
  | loggedHttp11NotImplementedThenClosed
  | routedHttp2OverTls
  | routedHttp11OverTls
deriving DecidableEq

/-- `WebServer::perform_alpn_negotiation`: fail when `SSL_accept` fails;
otherwise return the ALPN-selected protocol, defaulting to `http/1.1`
when the client negotiated none. -/
def perform_alpn_negotiation (handshakeOk : Bool) (alpnSelected : Option Str) :
    Option Str :=
  if handshakeOk then some (alpnSelected.getD ("http/1.1".toList)) else none

/-- `WebServer::handle_tls_connection`: create the SSL session, run the
handshake and ALPN negotiation, then branch on the negotiated protocol.
In the source both branches only log "… not fully implemented yet" and
fall through to `SSL_shutdown`/`SSL_free`; no handler is invoked. -/
def handle_tls_connection (sslCreateOk handshakeOk : Bool)
    (alpnSelected : Option Str) : TlsOutcome :=
  if !sslCreateOk then .sslCreateFailed
  else
    match perform_alpn_negotiation handshakeOk alpnSelected with
    | none => .handshakeFailed
    | some proto =>
      if proto = "h2".toList then .loggedH2NotImplementedThenClosed
      else .loggedHttp11NotImplementedThenClosed

/-! ### Worker pool (`ThreadPool`, coordinated-shutdown variant in `server.cpp`) -/

/-- The queue state of the `ThreadPool`.  Tasks are opaque (identified by
numbers); worker threads are not part of the sequential state. -/
structure ThreadPoolState where
  tasks : List Nat := []
  stop_flag : Bool := false
deriving DecidableEq

/-- `ThreadPool::enqueue`: drop the task when the stop flag is set, drop it
when the queue lock cannot be taken quickly during shutdown, re-check the
stop flag under the lock, else push. -/
def ThreadPool.enqueue (p : ThreadPoolState) (t : Nat)
    (lockImmediatelyAvailable shutdownRequested : Bool) : ThreadPoolState :=
  if p.stop_flag then p
  else if !lockImmediatelyAvailable && shutdownRequested then p
  else if p.stop_flag then p
  else { p with tasks := p.tasks ++ [t] }

/-- `ThreadPool::stop` (coordinated-shutdown variant): set the stop flag,
wake all workers, request coordinator shutdown, join each worker with a
3-second overall budget and detach stragglers (none of which touches the
queue), then clear the task queue — but only under
`std::unique_lock(queue_mutex, std::try_to_lock)`: when the try-lock
fails (a detached worker may still hold the mutex) the source merely
prints "Warning: Could not clear task queue" and returns with the queue
intact.  `clearLockAcquired` is the outcome of that try-lock. -/
def ThreadPool.stop (clearLockAcquired : Bool) (p : ThreadPoolState) : ThreadPoolState :=
  let p1 := { p with stop_flag := true }
  if clearLockAcquired then { p1 with tasks := [] } else p1

/-! ### WebSocket frame codec (`WebSocketHandler::parse_frame`) -/

/-- `std::vector` / `std::string` `max_size()` on an LP64 platform
(`PTRDIFF_MAX`); `resize`/`append` beyond it throws `std::length_error`. -/
def containerMax : Nat := 2 ^ 63 - 1

/-- A parsed WebSocket frame.  In the C++ struct the scalar members are
uninitialized until assigned; the model defaults them (`payload` — a
`std::vector` — really is empty on every early return). -/
structure WebSocketFrame where
  fin : Bool := false
  opcode : Nat := 0
  masked : Bool := false
  payload_length : Nat := 0
  mask : List Nat := [0, 0, 0, 0]
  payload : List Nat := []
deriving DecidableEq

/-- Tail of `parse_frame` from `frame.payload_length = payload_len;`
onwards: optional 4-byte mask, then the payload bounds check
`data.size() < payload_start + payload_len` — computed in 64-bit unsigned
arithmetic, hence the explicit `% 2^64` — followed by
`frame.payload.resize(payload_len)` (which throws `std::length_error`
above `max_size()`, modelled as `.error ()`) and the XOR-unmasking copy
loop. -/
def parseFrameTail (data : List Nat) (fin : Bool) (opcode : Nat) (masked : Bool)
    (plen payloadStart : Nat) (mask : List Nat) : Except Unit WebSocketFrame :=
  if data.length < (payloadStart + plen) % 2 ^ 64 then
    .ok { fin := fin, opcode := opcode, masked := masked,
          payload_length := plen, mask := mask }
  else if plen > containerMax then .error ()
  else
    .ok { fin := fin, opcode := opcode, masked := masked,
          payload_length := plen, mask := mask,
          payload := (List.range plen).map fun i =>
            if masked then (data.getD (payloadStart + i) 0) ^^^ mask.getD (i % 4) 0
            else data.getD (payloadStart + i) 0 }

/-- The `if (frame.masked)` mask-extraction step of `parse_frame`: when the
buffer is too short for the 4-byte mask the function returns early (with
`payload_length` already assigned); otherwise the mask is copied and
`payload_start` advances by 4. -/
def parseFrameTailMask (data : List Nat) (fin : Bool) (opcode : Nat) (masked : Bool)
    (plen payloadStart : Nat) : Except Unit WebSocketFrame :=
  if masked then
    if data.length < payloadStart + 4 then
      .ok { fin := fin, opcode := opcode, masked := masked, payload_length := plen }
    else
      parseFrameTail data fin opcode masked plen (payloadStart + 4)
        [data.getD payloadStart 0, data.getD (payloadStart + 1) 0,
         data.getD (payloadStart + 2) 0, data.getD (payloadStart + 3) 0]
  else parseFrameTail data fin opcode masked plen payloadStart [0, 0, 0, 0]

/-! ### HTTP/2 engine (`HTTP2Handler`, server-push variant) -/

/-- An `HTTP2Stream` object.  Field defaults are those of the C++
constructor: flags false, status 200, send cursor 0, push enabled. -/
structure HTTP2Stream where
  stream_id : Int
  method : Str := []
  path : Str := []
  headers : List (Str × Str) := []
  body : Str := []
  headers_complete : Bool := false
  request_complete : Bool := false
  response_body : Str := []
  response_headers : List (Str × Str) := []
  status_code : Int := 200
  response_data_sent : Nat := 0
  push_enabled : Bool := true
deriving DecidableEq

/-- `streams[id] = …` on the `std::map<int32_t, unique_ptr<HTTP2Stream>>`. -/
def streamStore : List (Int × HTTP2Stream) → Int → HTTP2Stream → List (Int × HTTP2Stream)
  | [], k, v => [(k, v)]
  | (k0, v0) :: rest, k, v =>
    if k0 = k then (k0, v) :: rest else (k0, v0) :: streamStore rest k v

/-- `streams.find(id)`. -/
def streamFind? : List (Int × HTTP2Stream) → Int → Option HTTP2Stream
  | [], _ => none
  | (k0, v0) :: rest, k => if k0 = k then some v0 else streamFind? rest k

/-- `streams.erase(id)`. -/
def streamErase : List (Int × HTTP2Stream) → Int → List (Int × HTTP2Stream)
  | [], _ => []
  | (k0, v0) :: rest, k =>
    if k0 = k then streamErase rest k else (k0, v0) :: streamErase rest k

/-- The MIME table built by `FileHandler::initialize_mime_types`. -/
def mimeTypes : List (Str × Str) :=
  [(".html".toList, "text/html".toList), (".htm".toList, "text/html".toList),
   (".css".toList, "text/css".toList), (".js".toList, "application/javascript".toList),
   (".json".toList, "application/json".toList), (".txt".toList, "text/plain".toList),
   (".xml".toList, "application/xml".toList), (".png".toList, "image/png".toList),
   (".jpg".toList, "image/jpeg".toList), (".jpeg".toList, "image/jpeg".toList),
   (".gif".toList, "image/gif".toList), (".svg".toList, "image/svg+xml".toList),
   (".ico".toList, "image/x-icon".toList), (".pdf".toList, "application/pdf".toList),
   (".zip".toList, "application/zip".toList)]

/-- `FileHandler::get_file_extension`: the substring starting at the last
`'.'` of the path (including the dot), empty if there is no dot. -/
def lastDotSuffix : Str → Str
  | [] => []
  | c :: cs => if '.' ∈ cs then lastDotSuffix cs else if c = '.' then c :: cs else []

/-- `FileHandler::get_mime_type`: look the lower-cased extension up in the
MIME table, defaulting to `application/octet-stream`. -/
def get_mime_type (path : Str) : Str :=
  match mapFind? mimeTypes ((lastDotSuffix path).map cToLower) with
  | some m => m
  | none => "application/octet-stream".toList

/-- `HTTP2Handler::server_push_enabled` — constantly true in the source. -/
def server_push_enabled : Bool := true

/-- `HTTP2Handler::identify_push_resources`: the static trigger → pushed
resources table. -/
def identify_push_resources (path : Str) : List Str :=
  if path = "/".toList ∨ path = "/index.html".toList then
    ["/style.css".toList, "/demo.html".toList]
  else if path = "/dashboard.html".toList then
    ["/style.css".toList, "/data.json".toList]
  else if path = "/demo.html".toList then
    ["/style.css".toList]
  else []

/-- The file-system collaborator (`FileHandler` + document root) seen by
`HTTP2Handler::process_request`.  `file_exists`/`read_file` take the
string argument exactly as the engine passes it (`document_root + path`);
`read_throws p` models `read_file` (or the string operations on its
result) throwing, which the `catch` in `process_request` turns into a
500 response. -/
structure FileEnv where
  document_root : Str
  file_exists : Str → Bool
  read_file : Str → Str
  read_throws : Str → Bool

/-- A well-formed collaborator: file contents fit in a `std::string`. -/
def FileEnv.WF (env : FileEnv) : Prop :=
  ∀ p, (env.read_file p).length ≤ containerMax

/-- The engine-owned part of an HTTP/2 session: the stream table, the next
promised (server-initiated, even) stream id the codec will allocate, and
two observation logs — the `PUSH_PROMISE` frames submitted via
`nghttp2_submit_push_promise` (parent stream id and `:path`) and the
responses submitted via `nghttp2_submit_response`. -/
structure HTTP2Session where
  streams : List (Int × HTTP2Stream) := []
  nextPromisedId : Int := 2
  pushEvents : List (Int × Str) := []
  submitted : List Int := []
deriving DecidableEq

/-- `streams[id] = s` at the session level. -/
def sessionStore (st : HTTP2Session) (id : Int) (s : HTTP2Stream) : HTTP2Session :=
  { st with streams := streamStore st.streams id s }

/-- `nghttp2_submit_response(session, stream_id, …)` at the end of
`process_request` (`send_response`): records the submission; the stream
table is not modified. -/
def submitResponse (st : HTTP2Session) (id : Int) : HTTP2Session :=
  { st with submitted := st.submitted ++ [id] }

/-- HTML body of the engine's 404 response. -/
def body404 : Str :=
  "<!DOCTYPE html><html><body><h1>404 Not Found</h1></body></html>".toList

/-- HTML body of the engine's 500 response. -/
def body500 : Str :=
  "<!DOCTYPE html><html><body><h1>500 Internal Server Error</h1></body></html>".toList

/-- Prefix of the POST echo response body. -/
def echoPrefix : Str := "POST request received. Body: ".toList

/-- Body of the engine's 405 response. -/
def body405 : Str := "Method Not Allowed".toList

/-- The `content-type` response-header key. -/
def ctKey : Str := "content-type".toList

/-- `m[k]` read access right after `m[k] = v` (`std::map::operator[]`). -/
def mapFindD (m : List (Str × Str)) (k d : Str) : Str := (mapFind? m k).getD d

/-- The file path `process_request` serves for a GET:
`document_root + path`, with `/` mapped to `/index.html`. -/
def http2FilePath (env : FileEnv) (path : Str) : Str :=
  if path = "/".toList then env.document_root ++ "/index.html".toList
  else env.document_root ++ path

/-- The stream after the 200 file-serving branch of `process_request`:
body from `read_file`, status 200, content type from `get_mime_type`. -/
def serve200 (env : FileEnv) (s : HTTP2Stream) (fp : Str) : HTTP2Stream :=
  { s with response_body := env.read_file fp, status_code := 200,
           response_headers := mapStore s.response_headers ctKey (get_mime_type fp) }

/-- The stream after the 404 branch of `process_request`. -/
def serve404 (s : HTTP2Stream) : HTTP2Stream :=
  { s with status_code := 404, response_body := body404,
           response_headers := mapStore s.response_headers ctKey ("text/html".toList) }

/-- The stream after the `catch` (500) branch of `process_request`. -/
def serve500 (s : HTTP2Stream) : HTTP2Stream :=
  { s with status_code := 500, response_body := body500,
           response_headers := mapStore s.response_headers ctKey ("text/html".toList) }

/-- The stream after the POST echo branch of `process_request`. -/
def serveEcho (s : HTTP2Stream) : HTTP2Stream :=
  { s with status_code := 200, response_body := echoPrefix ++ s.body,
           response_headers := mapStore s.response_headers ctKey ("text/plain".toList) }

/-- The stream after the 405 branch of `process_request`. -/
def serve405 (s : HTTP2Stream) : HTTP2Stream :=
  { s with status_code := 405, response_body := body405,
           response_headers := mapStore s.response_headers ctKey ("text/plain".toList) }

/-- The stream `push_resource` synthesises for a pushed resource: fresh id,
`GET`, the pushed path, headers and request already complete. -/
def pushedStream (pid : Int) (path : Str) : HTTP2Stream :=
  { stream_id := pid, method := "GET".toList, path := path,
    headers_complete := true, request_complete := true }

/-- The session-state effect of `nghttp2_submit_push_promise` plus the
stream table insertion inside `push_resource`: record the promise (parent
id, `:path`), allocate the next even promised id, store the synthesised
stream. -/
def submitPush (st : HTTP2Session) (parent : Int) (r : Str) : HTTP2Session :=
  { st with nextPromisedId := st.nextPromisedId + 2,
            pushEvents := st.pushEvents ++ [(parent, r)],
            streams := streamStore st.streams st.nextPromisedId
              (pushedStream st.nextPromisedId r) }

/-- The two mutually recursive pieces of the push machinery:
`process_request(streams[id].get())` and the
`for (resource : push_resources) push_resource(parent, resource, "GET")`
loop. -/
inductive PRCall where
  | proc (id : Int)
  | pushes (parent : Int) (resources : List Str)

/-- `HTTP2Handler::process_request` / `push_resource`, fused into one
fuel-indexed function (the fuel only serves Lean's termination checker;
the C++ recursion depth is bounded by the static push table).

`.proc id` is `process_request` on the stream stored under `id`: early
return unless the request is complete; `GET` serves the resolved file
path, a missing file gives 404, an exception while reading gives 500 via
the `catch` block, and on a 200 whose content type is `text/html` with
push enabled the engine first submits push promises for the resources of
the static table; `POST` echoes the body (`std::string` concatenation can
throw past `max_size`, modelled as `none`); anything else gives 405.
Every branch ends in `send_response`.

`.pushes parent rs` is the push loop: for each resource a `PUSH_PROMISE`
is submitted with the parent stream id, a fresh promised stream id is
allocated, a new stream in the request-complete state is stored under it,
and `process_request` runs on the pushed stream. -/
def runPR : Nat → FileEnv → HTTP2Session → PRCall → Option HTTP2Session
  | 0, _, _, _ => none
  | Nat.succ fuel, env, st, .proc id =>
    match streamFind? st.streams id with
    | none => some st
    | some s =>
      if s.request_complete = false then some st
      else if s.method = "GET".toList then
        if env.file_exists (http2FilePath env s.path) then
          if env.read_throws (http2FilePath env s.path) then
            some (submitResponse (sessionStore st id (serve500 s)) id)
          else
            let s1 := serve200 env s (http2FilePath env s.path)
            let st1 := sessionStore st id s1
            if s1.push_enabled && server_push_enabled
                && decide (mapFindD s1.response_headers ctKey [] = "text/html".toList) then
              match runPR fuel env st1 (.pushes s.stream_id (identify_push_resources s.path)) with
              | none => none
              | some st2 => some (submitResponse st2 id)
            else some (submitResponse st1 id)
        else some (submitResponse (sessionStore st id (serve404 s)) id)
      else if s.method = "POST".toList then
        if (echoPrefix ++ s.body).length > containerMax then none
        else some (submitResponse (sessionStore st id (serveEcho s)) id)
      else some (submitResponse (sessionStore st id (serve405 s)) id)
  | Nat.succ _, _, st, .pushes _ [] => some st
  | Nat.succ fuel, env, st, .pushes parent (r :: rs) =>
    if server_push_enabled then
      match runPR fuel env (submitPush st parent r) (.proc st.nextPromisedId) with
      | none => none
      | some st2 => runPR fuel env st2 (.pushes parent rs)
    else runPR fuel env st (.pushes parent rs)

/-- `on_frame_recv_callback`, `NGHTTP2_HEADERS` with request category:
create a fresh stream, record the `END_HEADERS`/`END_STREAM` flags, store
it (replacing any previous entry), and dispatch when the request is
already complete. -/
def on_headers_frame (fuel : Nat) (env : FileEnv) (st : HTTP2Session) (id : Int)
    (endHeaders endStream : Bool) : Option HTTP2Session :=
  let s : HTTP2Stream :=
    { stream_id := id, headers_complete := endHeaders, request_complete := endStream }
  let st1 := sessionStore st id s
  if endStream then runPR fuel env st1 (.proc id) else some st1

/-- `on_data_chunk_recv_callback`: append the chunk to the stream's request
body (`std::string::append` can throw past `max_size`, modelled `none`). -/
def on_data_chunk (st : HTTP2Session) (id : Int) (chunk : Str) : Option HTTP2Session :=
  match streamFind? st.streams id with
  | none => some st
  | some s =>
    if (s.body ++ chunk).length > containerMax then none
    else some (sessionStore st id { s with body := s.body ++ chunk })

/-- `on_frame_recv_callback`, `NGHTTP2_DATA`: on `END_STREAM` mark the
request complete and dispatch.  The `WINDOW_UPDATE` submissions touch only
the codec session, not the stream table. -/
def on_data_frame (fuel : Nat) (env : FileEnv) (st : HTTP2Session) (id : Int)
    (endStream : Bool) : Option HTTP2Session :=
  if endStream then
    match streamFind? st.streams id with
    | none => some st
    | some s => runPR fuel env (sessionStore st id { s with request_complete := true }) (.proc id)
  else some st

/-- `on_stream_close_callback`: `streams.erase(stream_id)`. -/
def on_stream_close (st : HTTP2Session) (id : Int) : HTTP2Session :=
  { st with streams := streamErase st.streams id }

/-- `data_source_read_callback` for the stream registered as the data
source: `remaining = response_body.length() - response_data_sent` in
`size_t` arithmetic (which wraps modulo `2^64` — hence the explicit
model), `copy_len = min(length, remaining)`, and the cursor advances by
`copy_len`. -/
def data_source_read (st : HTTP2Session) (id : Int) (len : Nat) : HTTP2Session :=
  match streamFind? st.streams id with
  | none => st
  | some s =>
    let remaining := (2 ^ 64 + s.response_body.length - s.response_data_sent) % 2 ^ 64
    let copy_len := min len remaining
    sessionStore st id
      { s with response_data_sent := (s.response_data_sent + copy_len) % 2 ^ 64 }

/-- Observable session states: the initial empty session and everything
the callbacks can produce.  DATA events carry the guard that the client
has not already half-closed the stream (`request_complete` still false):
nghttp2 validates the HTTP/2 stream state machine and never delivers DATA
callbacks for a stream after the client's `END_STREAM`. -/
inductive Reachable (fuel : Nat) (env : FileEnv) : HTTP2Session → Prop where
  | init : Reachable fuel env {}
  | headers (st : HTTP2Session) (id : Int) (eh es : Bool) (st' : HTTP2Session) :
      Reachable fuel env st → on_headers_frame fuel env st id eh es = some st' →
      Reachable fuel env st'
  | dataChunk (st : HTTP2Session) (id : Int) (chunk : Str) (st' : HTTP2Session) :
      Reachable fuel env st →
      (∀ s, streamFind? st.streams id = some s → s.request_complete = false) →
      on_data_chunk st id chunk = some st' → Reachable fuel env st'
  | dataFrame (st : HTTP2Session) (id : Int) (es : Bool) (st' : HTTP2Session) :
      Reachable fuel env st →
      (∀ s, streamFind? st.streams id = some s → s.request_complete = false) →
      on_data_frame fuel env st id es = some st' → Reachable fuel env st'
  | close (st : HTTP2Session) (id : Int) :
      Reachable fuel env st → Reachable fuel env (on_stream_close st id)
  | read (st : HTTP2Session) (id : Int) (len : Nat) :
      Reachable fuel env st → Reachable fuel env (data_source_read st id len)

/-- The claimed per-stream invariant, strengthened into an inductive
invariant: the send cursor never exceeds the response body (the claim),
the body fits in `size_t` (true of any `std::string`), and a stream whose
request is not yet complete has no response body yet (`process_request`
early-returns on incomplete requests, and only it assigns
`response_body`). -/
def StreamInv (s : HTTP2Stream) : Prop :=
  s.response_data_sent ≤ s.response_body.length ∧
  s.response_body.length < 2 ^ 64 ∧
  (s.request_complete = false → s.response_body = [])

/-- All streams in the session's table satisfy the stream invariant. -/
def SessionInv (st : HTTP2Session) : Prop :=
  ∀ id s, streamFind? st.streams id = some s → StreamInv s

/-- Precondition of a `process_request` dispatch: the dispatched stream has
no response body yet (it is freshly created, or its request has just
become complete). -/
def ProcPre (st : HTTP2Session) : PRCall → Prop
  | .proc id => ∀ s, streamFind? st.streams id = some s → s.response_body = []
  | .pushes _ _ => True

/-- A trivial file-system collaborator (no files), used by witnesses. -/
def emptyFileEnv : FileEnv :=
  { document_root := [], file_exists := fun _ => false,
    read_file := fun _ => [], read_throws := fun _ => false }

/-- The paths of the recorded `PUSH_PROMISE` submissions whose parent is
the given stream id, in submission order. -/
def pushesWithParent (events : List (Int × Str)) (parent : Int) : List Str :=
  (events.filter fun e => e.1 = parent).map (·.2)

/-- A file-system collaborator on which every file exists, used by the
C3 witness. -/
def allFilesEnv : FileEnv :=
  { document_root := [], file_exists := fun _ => true,
    read_file := fun _ => "x".toList, read_throws := fun _ => false }

/-- A complete `GET /` request stream with push enabled (constructor
defaults), used by the C3 theorems. -/
def c3Stream : HTTP2Stream :=
  { stream_id := 1, method := "GET".toList, path := "/".toList,
    headers_complete := true, request_complete := true }

/-- A session holding only `c3Stream`. -/
def c3Session : HTTP2Session := sessionStore {} 1 c3Stream

/-- `WebSocketHandler::parse_frame` on a received byte vector: header
fields from the first two bytes, 7/16/64-bit payload length, optional
mask, then the payload copy.  Each `if (data.size() < …) return frame;`
guard is an early return with an empty payload. -/
def parse_frame (data : List Nat) : Except Unit WebSocketFrame :=
  if data.length < 2 then .ok { fin := false, opcode := 0 }
  else
    let b0 := data.getD 0 0
    let b1 := data.getD 1 0
    let fin : Bool := (b0 &&& 0x80) != 0
    let opcode := b0 &&& 0x0F
    let masked : Bool := (b1 &&& 0x80) != 0
    let pl0 := b1 &&& 0x7F
    if pl0 = 126 then
      if data.length < 4 then .ok { fin := fin, opcode := opcode, masked := masked }
      else
        parseFrameTailMask data fin opcode masked
          (((data.getD 2 0) <<< 8) ||| data.getD 3 0) 4
    else if pl0 = 127 then
      if data.length < 10 then .ok { fin := fin, opcode := opcode, masked := masked }
      else
        parseFrameTailMask data fin opcode masked
          ((List.range 8).foldl
            (fun acc i => acc ||| ((data.getD (2 + i) 0) <<< (8 * (7 - i)))) 0) 10
    else parseFrameTailMask data fin opcode masked pl0 2

/-- Concrete input of the C6 counterexample: a request whose request line is
fine but whose only header line has no colon. -/
def c6Input : Str := "GET /x HTTP/1.1\r\nbadheader\r\n\r\n".toList

/-- The `HttpRequest` state after parsing `c6Input`. -/
def c6Result : HttpRequest :=
  { method := "GET".toList, path := "/x".toList, version := "HTTP/1.1".toList }

/-- The request parsed by the C6-amended witness. -/
def simpleGetReq : HttpRequest :=
  { method := "GET".toList, path := "/".toList, version := "HTTP/1.1".toList,
    valid := true }

/-- The 10-byte WebSocket frame that breaks `parse_frame`: unmasked, FIN,
text opcode, 7-bit length field 127, and a 64-bit extended payload length
of `2^64 - 4`, so that `payload_start + payload_len` wraps modulo `2^64`
to 6 and the bounds check `data.size() < 6` passes on a 10-byte buffer. -/
def wsOverflowFrame : List Nat :=
  [0x81, 0x7F, 0xFF, 0xFF, 0xFF, 0xFF, 0xFF, 0xFF, 0xFF, 0xFC]

/-- An abstract description of a well-formed HTTP/1.1 request: a method, a
request target, a version, a list of header name/value pairs and a body. -/
structure WFRequest where
  method : Str
  target : Str
  version : Str
  hdrs : List (Str × Str)
  body : Str

/-- The request line a well-formed request renders to (before `CRLF`). -/
def reqLine (w : WFRequest) : Str :=
  w.method ++ (' ' :: (w.target ++ (' ' :: w.version)))

/-- A header line `name: value` (before `CRLF`). -/
def headerLineOf (p : Str × Str) : Str :=
  p.1 ++ (':' :: (' ' :: p.2))

/-- One rendered header line including its `CRLF` terminator. -/
def renderHeader (p : Str × Str) : Str :=
  (headerLineOf p ++ ['\r']) ++ ['\n']

/-- The wire form of a well-formed request: request line, header lines,
blank line, body, every line terminated by `CRLF`. -/
def render (w : WFRequest) : Str :=
  ((reqLine w ++ ['\r']) ++ ['\n']) ++
    ((w.hdrs.map renderHeader).flatten ++ ('\r' :: ('\n' :: w.body)))

/-- Well-formedness of the abstract request: non-empty all-letter method, a
target that starts with `/` and contains no whitespace and no `?`, a
non-empty whitespace-free version, and header names that are non-empty
after space-trimming and contain neither `:` nor `\n`, with values free of
`\n`. -/
def WellFormed (w : WFRequest) : Prop :=
  w.method ≠ [] ∧ (∀ c ∈ w.method, asciiAlpha c = true) ∧
  w.target.head? = some '/' ∧ (∀ c ∈ w.target, wsChar c = false ∧ c ≠ '?') ∧
  w.version ≠ [] ∧ (∀ c ∈ w.version, wsChar c = false) ∧
  ∀ p ∈ w.hdrs, trim p.1 ≠ [] ∧ (∀ c ∈ p.1, c ≠ ':' ∧ c ≠ '\n') ∧
    ∀ c ∈ p.2, c ≠ '\n'

/-- The header section of a raw request as `HttpRequest::parse` walks it:
all `getline` lines after the first, up to the first line that is empty
after CR-stripping. -/
def headerSection (raw : Str) : List Str :=
  ((splitDelim '\n' raw).drop 1).takeWhile (fun l => !(stripCR l).isEmpty)

/-- A malformed header line in the sense of the claim: after CR-stripping,
either no colon at all, or an empty (after space-trimming) name before the
first colon. -/
def malformedHeaderLine (l : Str) : Prop :=
  ((stripCR l).takeWhile (· ≠ ':')).length = (stripCR l).length ∨
  trim ((stripCR l).takeWhile (· ≠ ':')) = []

/-- The `HttpRequest` state after `iss >> method >> path_with_query >> version`
and the uppercase transform, before query-string processing. -/
def preQueryReq (w : WFRequest) : HttpRequest :=
  { method := w.method.map cToUpper, version := w.version }

/-- The `HttpRequest` state right after a successful request line of a
well-formed request. -/
def parsedReqLine (w : WFRequest) : HttpRequest :=
  { method := w.method.map cToUpper, path := w.target, version := w.version }

/-- A concrete well-formed request used to instantiate the C5 theorem. -/
def wfSample : WFRequest :=
  { method := "get".toList, target := "/index.html".toList,
    version := "HTTP/1.1".toList,
    hdrs := [("Host".toList, "example.com".toList),
             ("Connection".toList, "close".toList)],
    body := "hello".toList }

/-- A concrete request whose second line has no colon. -/
def badHeaderRaw : Str := "GET / HTTP/1.1\r\nnocolon\r\n\r\n".toList

end WebServerModel

namespace WebServerModel

/-! ## Theorems -/

/-- C4: for every parsed HTTP/1.1 request, the connection is kept alive iff
keep-alive is globally enabled AND the request's version is exactly
`HTTP/1.1` AND the request carries no `Connection: close` header. -/
theorem keep_alive_iff (enabled : Bool) (r : HttpRequest) :
    should_keep_alive enabled r = true ↔
      enabled = true ∧ r.version = "HTTP/1.1".toList ∧
        mapFind? r.headers ("connection".toList) ≠ some ("close".toList) := by
  have hname : ("connection".toList).map cToLower = "connection".toList := by decide
  unfold should_keep_alive get_header
  rw [hname]
  cases enabled with
  | false => simp
  | true =>
    by_cases hv : r.version = "HTTP/1.1".toList
    · cases hfind : mapFind? r.headers ("connection".toList) with
      | none =>
        have hne : ¬ (([] : Str) = "close".toList) := by decide
        simp_all
      | some v =>
        by_cases hc : v = "close".toList
        · simp_all
        · simp_all
    · simp_all

/-- C10: `HttpRequest::get_content_length` never propagates an exception —
it is a total function that returns 0 when the `Content-Length` header is
absent, returns 0 when the `std::stoul` conversion throws, and otherwise
returns the converted value. -/
theorem content_length_total (r : HttpRequest) :
    (mapFind? r.headers ("content-length".toList) = none → get_content_length r = 0) ∧
    (∀ v, mapFind? r.headers ("content-length".toList) = some v →
      stoulE v = .error () → get_content_length r = 0) ∧
    (∀ v n, mapFind? r.headers ("content-length".toList) = some v →
      stoulE v = .ok n → get_content_length r = n) := by
  have hname : ("content-length".toList).map cToLower = "content-length".toList := by decide
  unfold get_content_length get_header
  rw [hname]
  cases hfind : mapFind? r.headers ("content-length".toList) with
  | none =>
    refine ⟨fun _ => by simp, fun v hv => by simp at hv, fun v n hv => by simp at hv⟩
  | some v =>
    refine ⟨fun h => by simp at h, ?_, ?_⟩
    · intro w hw herr
      obtain rfl : v = w := by injection hw
      by_cases hvnil : v = []
      · simp [hvnil]
      · simp only [hvnil, if_false, herr]
    · intro w n hw hok
      obtain rfl : v = w := by injection hw
      have hvnil : v ≠ [] := by
        intro h
        rw [h] at hok
        exact Except.noConfusion hok
      simp only [hvnil, if_false, hok]

/-- Closed witness for C10: a missing header gives 0, a numeric header its
value, a non-numeric header 0. -/
theorem content_length_total_witness :
    get_content_length {} = 0 ∧
    get_content_length { headers := [("content-length".toList, "42".toList)] } = 42 ∧
    get_content_length { headers := [("content-length".toList, "abc".toList)] } = 0 :=
  ⟨(content_length_total {}).1 rfl,
   (content_length_total { headers := [("content-length".toList, "42".toList)] }).2.2
     ("42".toList) 42 rfl (by decide),
   (content_length_total { headers := [("content-length".toList, "abc".toList)] }).2.1
     ("abc".toList) rfl (by decide)⟩

/-- C2: contrary to the claim, after a successful TLS handshake the source
routes the connection to no handler at all — for ALPN `h2` it prints
"HTTP/2 over TLS not fully implemented yet" and closes the TLS session,
and likewise for `http/1.1`; the required routed outcomes are never
produced for any input. -/
theorem tls_alpn_never_routed :
    handle_tls_connection true true (some ("h2".toList)) = .loggedH2NotImplementedThenClosed ∧
    handle_tls_connection true true (some ("http/1.1".toList)) = .loggedHttp11NotImplementedThenClosed ∧
    ∀ (sslOk hs : Bool) (alpn : Option Str),
      handle_tls_connection sslOk hs alpn ≠ .routedHttp2OverTls ∧
      handle_tls_connection sslOk hs alpn ≠ .routedHttp11OverTls := by
  refine ⟨rfl, rfl, ?_⟩
  intro sslOk hs alpn
  unfold handle_tls_connection perform_alpn_negotiation
  cases sslOk <;> cases hs <;> simp
  constructor <;> split <;> simp

/-- C8 counterexample: a task enqueued before `stop()` survives `stop()`
when the final try-lock on the queue mutex fails — the source then only
prints a warning and leaves the queue intact. -/
theorem thread_pool_stop_counterexample :
    (ThreadPool.stop false (ThreadPool.enqueue {} 0 true false)).tasks = [0] := rfl

/-- C8 amended: after `ThreadPool::stop()` returns, no previously enqueued
task remains pending provided the final try-lock on the queue mutex
succeeds (on try-lock failure the source logs a warning and pending tasks
may remain). -/
theorem thread_pool_stop_clears_queue (p : ThreadPoolState) :
    (ThreadPool.stop true p).tasks = [] ∧ (ThreadPool.stop true p).stop_flag = true :=
  ⟨rfl, rfl⟩

/-- C9: `WebSocketHandler::parse_frame` is not total — on this 10-byte
frame declaring a 64-bit payload length of `2^64 - 4`, the bounds check
`data.size() < payload_start + payload_len` wraps modulo `2^64` and
passes, and `frame.payload.resize(payload_len)` then throws
`std::length_error` instead of returning an empty-payload frame. -/
theorem parse_frame_length_overflow :
    parse_frame wsOverflowFrame = .error () := by rfl

/-- C1 counterexample: the byte sequence consisting of a single NUL byte is
not the HTTP/2 preface, yet it is never parsed as an HTTP/1.1 request —
`std::string(buffer)` truncates at the NUL, the accumulated header data
stays empty, and the handler closes the connection without parsing. -/
theorem dispatcher_nul_counterexample :
    handle_client_task true ['\x00'] [] = .closedWithoutRequest ∧
    (['\x00'] : Str).take 24 ≠ HTTP2_CONNECTION_PREFACE :=
  ⟨rfl, by decide⟩

/-- C1 amended: with HTTP/2 enabled (`main` calls `enable_http2(true)`), if
the first 24 bytes read equal the connection preface the handler routes
the connection to the HTTP/2 engine passing all already-read bytes as
initial data; otherwise it never routes to HTTP/2 and parses the
accumulated data as an HTTP/1.1 request whenever that data is nonempty
(the NUL-truncating `std::string` conversion can make it empty, in which
case the connection is closed without parsing). -/
theorem dispatcher_routing (firstRecv : Str) (moreChunks : List Str) :
    (firstRecv.take 24 = HTTP2_CONNECTION_PREFACE →
      handle_client_task true firstRecv moreChunks = .http2Route firstRecv) ∧
    (firstRecv.take 24 ≠ HTTP2_CONNECTION_PREFACE →
      (∀ d, handle_client_task true firstRecv moreChunks ≠ .http2Route d) ∧
      (accumulateHeaders (truncAtNul firstRecv) moreChunks ≠ [] →
        handle_client_task true firstRecv moreChunks =
          .http11Parse (accumulateHeaders (truncAtNul firstRecv) moreChunks)
            (HttpRequest.parse (accumulateHeaders (truncAtNul firstRecv) moreChunks))) ∧
      (accumulateHeaders (truncAtNul firstRecv) moreChunks = [] →
        handle_client_task true firstRecv moreChunks = .closedWithoutRequest)) := by
  constructor
  · intro hpre
    have hlen : 24 ≤ firstRecv.length := by
      have h1 : (firstRecv.take 24).length = 24 := by
        rw [hpre]; decide
      rw [List.length_take] at h1
      omega
    unfold handle_client_task
    simp [hpre, hlen]
  · intro hpre
    unfold handle_client_task
    have hcond : (true && decide (24 ≤ firstRecv.length)
        && decide (firstRecv.take 24 = HTTP2_CONNECTION_PREFACE)) = false := by
      simp [hpre]
    rw [hcond]
    simp only [if_false, Bool.false_eq_true]
    refine ⟨?_, ?_, ?_⟩
    · intro d
      split <;> simp
    · intro hne
      simp [hne]
    · intro he
      simp [he]

/-- Closed witness for C1: the preface routes to HTTP/2 with the read
bytes as initial data; a normal GET request is parsed as HTTP/1.1. -/
theorem dispatcher_routing_witness :
    handle_client_task true HTTP2_CONNECTION_PREFACE [] = .http2Route HTTP2_CONNECTION_PREFACE ∧
    handle_client_task true ("GET / HTTP/1.1\r\n\r\n".toList) [] =
      .http11Parse ("GET / HTTP/1.1\r\n\r\n".toList)
        (HttpRequest.parse ("GET / HTTP/1.1\r\n\r\n".toList)) :=
  ⟨(dispatcher_routing HTTP2_CONNECTION_PREFACE []).1 (by decide),
   ((dispatcher_routing ("GET / HTTP/1.1\r\n\r\n".toList) []).2 (by decide)).2.1 (by decide)⟩

theorem exceptBind_ok {ε α β : Type} {x : Except ε α} {f : α → Except ε β} {b : β}
    (h : x >>= f = .ok b) : ∃ a, x = .ok a ∧ f a = .ok b := by
  cases x with
  | ok a => exact ⟨a, rfl, h⟩
  | error e => exact Except.noConfusion h

theorem parse_query_parameters_fields {r r2 : HttpRequest} {pwq : Str}
    (h : parse_query_parameters r pwq = .ok r2) :
    r2.method = r.method ∧ r2.version = r.version ∧ r2.valid = r.valid := by
  simp only [parse_query_parameters] at h
  split at h
  · obtain rfl : { r with path := pwq } = r2 := by injection h
    exact ⟨rfl, rfl, rfl⟩
  · obtain ⟨qp, _, h2⟩ := exceptBind_ok h
    obtain rfl :
        { r with path := pwq.takeWhile (· ≠ '?'), query_params := qp } = r2 := by
      injection h2
    exact ⟨rfl, rfl, rfl⟩

theorem parse_request_line_props {line : Str} {r1 : HttpRequest} {b : Bool}
    (h : parse_request_line {} line = .ok (r1, b)) :
    r1.valid = false ∧ (b = true → r1.path.head? = some '/') := by
  unfold parse_request_line at h
  cases htok : tokens line with
  | nil =>
    rw [htok] at h
    obtain ⟨rfl, rfl⟩ : ({} : HttpRequest) = r1 ∧ false = b := by
      have := Except.ok.inj h
      exact ⟨congrArg Prod.fst this, congrArg Prod.snd this⟩
    exact ⟨rfl, by simp⟩
  | cons m ts =>
    cases ts with
    | nil =>
      rw [htok] at h
      obtain ⟨rfl, rfl⟩ : ({ method := m } : HttpRequest) = r1 ∧ false = b := by
        have := Except.ok.inj h
        exact ⟨congrArg Prod.fst this, congrArg Prod.snd this⟩
      exact ⟨rfl, by simp⟩
    | cons pwq ts2 =>
      cases ts2 with
      | nil =>
        rw [htok] at h
        obtain ⟨rfl, rfl⟩ : ({ method := m } : HttpRequest) = r1 ∧ false = b := by
          have := Except.ok.inj h
          exact ⟨congrArg Prod.fst this, congrArg Prod.snd this⟩
        exact ⟨rfl, by simp⟩
      | cons v rest =>
        rw [htok] at h
        obtain ⟨r2, hpq, h2⟩ := exceptBind_ok h
        have hfields := parse_query_parameters_fields hpq
        have hvalid : r2.valid = false := hfields.2.2
        split at h2
        · obtain ⟨rfl, rfl⟩ : r2 = r1 ∧ false = b := by
            have := Except.ok.inj h2
            exact ⟨congrArg Prod.fst this, congrArg Prod.snd this⟩
          exact ⟨hvalid, by simp⟩
        · split at h2
          · obtain ⟨rfl, rfl⟩ : r2 = r1 ∧ false = b := by
              have := Except.ok.inj h2
              exact ⟨congrArg Prod.fst this, congrArg Prod.snd this⟩
            exact ⟨hvalid, by simp⟩
          · rename_i hne
            obtain ⟨rfl, rfl⟩ : r2 = r1 ∧ true = b := by
              have := Except.ok.inj h2
              exact ⟨congrArg Prod.fst this, congrArg Prod.snd this⟩
            exact ⟨hvalid, fun _ => not_not.mp hne⟩

theorem parse_header_line_fields (r : HttpRequest) (l : Str) :
    (parse_header_line r l).1.method = r.method ∧
    (parse_header_line r l).1.path = r.path ∧
    (parse_header_line r l).1.version = r.version ∧
    (parse_header_line r l).1.valid = r.valid := by
  simp only [parse_header_line]
  split
  · exact ⟨rfl, rfl, rfl, rfl⟩
  · split
    · exact ⟨rfl, rfl, rfl, rfl⟩
    · split
      · exact ⟨rfl, rfl, rfl, rfl⟩
      · exact ⟨rfl, rfl, rfl, rfl⟩

theorem setValid_true_props {r r' : HttpRequest} {b : Bool}
    (h : setValid r = (r', b)) (hvalid : r'.valid = true) :
    r'.method ≠ [] ∧ r'.path ≠ [] ∧ r'.version ≠ [] ∧ r'.path = r.path := by
  unfold setValid at h
  obtain ⟨rfl, rfl⟩ :
      ({ r with valid := !r.method.isEmpty && !r.path.isEmpty && !r.version.isEmpty }
          : HttpRequest) = r' ∧
        (!r.method.isEmpty && !r.path.isEmpty && !r.version.isEmpty) = b :=
    ⟨congrArg Prod.fst h, congrArg Prod.snd h⟩
  have hv := hvalid
  simp only [Bool.and_eq_true, Bool.not_eq_true', List.isEmpty_eq_false] at hv
  exact ⟨hv.1.1, hv.1.2, hv.2, rfl⟩

theorem parseHeaderLoop_valid_props (lines : List Str) :
    ∀ r r' b, parseHeaderLoop r lines = (r', b) → r.valid = false →
      r.path.head? = some '/' → r'.valid = true →
      r'.method ≠ [] ∧ r'.path ≠ [] ∧ r'.version ≠ [] ∧ r'.path.head? = some '/' := by
  induction lines with
  | nil =>
    intro r r' b h _ hp hvalid
    obtain ⟨h1, h2, h3, h4⟩ := setValid_true_props h hvalid
    exact ⟨h1, h2, h3, h4 ▸ hp⟩
  | cons line rest ih =>
    intro r r' b h hv hp hvalid
    unfold parseHeaderLoop at h
    by_cases hl : stripCR line = []
    · rw [if_pos hl] at h
      obtain ⟨h1, h2, h3, h4⟩ := setValid_true_props h hvalid
      exact ⟨h1, h2, h3, h4 ▸ hp⟩
    · rw [if_neg hl] at h
      rcases hph : parse_header_line r (stripCR line) with ⟨r1, flag⟩
      have hfields := parse_header_line_fields r (stripCR line)
      rw [hph] at h hfields
      cases flag with
      | true =>
        exact ih r1 r' b h (hfields.2.2.2.trans hv) (hfields.2.1 ▸ hp) hvalid
      | false =>
        obtain ⟨rfl, rfl⟩ : r1 = r' ∧ false = b :=
          ⟨congrArg Prod.fst h, congrArg Prod.snd h⟩
        rw [hvalid] at hfields
        exact absurd (hfields.2.2.2.trans hv) (by decide)

/-- C6 counterexample: parsing a request whose request line succeeds but
whose header section contains a malformed line returns early with
`valid = false` even though method, path and version are all non-empty and
the path starts with `/` — so the claimed "if and only if" fails in the
right-to-left direction. -/
theorem valid_flag_counterexample :
    HttpRequest.parse c6Input = .ok (c6Result, false) ∧
    c6Result.valid = false ∧ c6Result.method ≠ [] ∧ c6Result.path ≠ [] ∧
    c6Result.version ≠ [] ∧ c6Result.path.head? = some '/' := by
  refine ⟨by rfl, rfl, ?_, ?_, ?_, rfl⟩ <;> decide

/-- C6 amended: after every call of `HttpRequest::parse` (on a freshly
constructed request object, as at every call site) that returns, if the
`valid` flag is true then the method, path and version fields are all
non-empty and the path starts with `/`; the converse direction of the
claimed equivalence does not hold. -/
theorem valid_flag_implies_fields {raw : Str} {r : HttpRequest} {b : Bool}
    (h : HttpRequest.parse raw = .ok (r, b)) (hvalid : r.valid = true) :
    r.method ≠ [] ∧ r.path ≠ [] ∧ r.version ≠ [] ∧ r.path.head? = some '/' := by
  unfold HttpRequest.parse at h
  split at h
  · obtain ⟨rfl, rfl⟩ : ({} : HttpRequest) = r ∧ false = b := by
      have := Except.ok.inj h
      exact ⟨congrArg Prod.fst this, congrArg Prod.snd this⟩
    exact absurd hvalid (by decide)
  · rcases hsp : splitDelim '\n' raw with _ | ⟨line, rest⟩
    · rw [hsp] at h
      have hset : setValid ({} : HttpRequest) = ({}, false) := by decide
      rw [hset] at h
      obtain ⟨rfl, rfl⟩ : ({} : HttpRequest) = r ∧ false = b := by
        have := Except.ok.inj h
        exact ⟨congrArg Prod.fst this, congrArg Prod.snd this⟩
      exact absurd hvalid (by decide)
    · rw [hsp] at h
      obtain ⟨x, hx, hfx⟩ := exceptBind_ok h
      rcases x with ⟨r1, ok1⟩
      have hprops := parse_request_line_props hx
      cases ok1 with
      | true =>
        have hloop : parseHeaderLoop r1 rest = (r, b) := Except.ok.inj hfx
        exact parseHeaderLoop_valid_props rest r1 r b hloop hprops.1
          (hprops.2 rfl) hvalid
      | false =>
        obtain ⟨rfl, rfl⟩ : r1 = r ∧ false = b := by
          have := Except.ok.inj hfx
          exact ⟨congrArg Prod.fst this, congrArg Prod.snd this⟩
        exact absurd (hprops.1.symm.trans hvalid) (by simp)

/-- Closed witness for the C6 amended theorem, at a well-formed request. -/
theorem valid_flag_implies_fields_witness :
    simpleGetReq.method ≠ [] ∧ simpleGetReq.path ≠ [] ∧
    simpleGetReq.version ≠ [] ∧ simpleGetReq.path.head? = some '/' :=
  @valid_flag_implies_fields ("GET / HTTP/1.1\r\n\r\n".toList) simpleGetReq true
    (by rfl) rfl

theorem streamFind?_store_self (m : List (Int × HTTP2Stream)) (id : Int) (s : HTTP2Stream) :
    streamFind? (streamStore m id s) id = some s := by
  induction m with
  | nil => simp [streamStore, streamFind?]
  | cons p rest ih =>
    rcases p with ⟨k0, v0⟩
    by_cases h : k0 = id
    · simp [streamStore, streamFind?, h]
    · simp [streamStore, streamFind?, h, ih]

theorem streamFind?_store_other (m : List (Int × HTTP2Stream)) (id id' : Int)
    (s : HTTP2Stream) (h : id' ≠ id) :
    streamFind? (streamStore m id s) id' = streamFind? m id' := by
  induction m with
  | nil => simp [streamStore, streamFind?, Ne.symm h]
  | cons p rest ih =>
    rcases p with ⟨k0, v0⟩
    by_cases hk : k0 = id
    · subst hk
      simp [streamStore, streamFind?, Ne.symm h]
    · by_cases hk' : k0 = id'
      · simp [streamStore, streamFind?, hk, hk', h]
      · simp [streamStore, streamFind?, hk, hk', ih]

theorem streamFind?_erase_self (m : List (Int × HTTP2Stream)) (id : Int) :
    streamFind? (streamErase m id) id = none := by
  induction m with
  | nil => simp [streamErase, streamFind?]
  | cons p rest ih =>
    rcases p with ⟨k0, v0⟩
    by_cases h : k0 = id
    · simp [streamErase, h, ih]
    · simp [streamErase, streamFind?, h, ih]

theorem streamFind?_erase_other (m : List (Int × HTTP2Stream)) (id id' : Int)
    (h : id' ≠ id) :
    streamFind? (streamErase m id) id' = streamFind? m id' := by
  induction m with
  | nil => simp [streamErase]
  | cons p rest ih =>
    rcases p with ⟨k0, v0⟩
    by_cases hk : k0 = id
    · subst hk
      simp [streamErase, streamFind?, Ne.symm h, ih]
    · by_cases hk' : k0 = id'
      · simp [streamErase, streamFind?, hk, hk', h]
      · simp [streamErase, streamFind?, hk, hk', ih]

theorem sessionInv_store {st : HTTP2Session} {id : Int} {s : HTTP2Stream}
    (hinv : SessionInv st) (hs : StreamInv s) : SessionInv (sessionStore st id s) := by
  intro id' s' hfind
  by_cases h : id' = id
  · subst h
    rw [show (sessionStore st id' s).streams = streamStore st.streams id' s from rfl,
      streamFind?_store_self] at hfind
    exact (Option.some.inj hfind) ▸ hs
  · rw [show (sessionStore st id s).streams = streamStore st.streams id s from rfl,
      streamFind?_store_other _ _ _ _ h] at hfind
    exact hinv id' s' hfind

theorem sessionInv_submit {st : HTTP2Session} {id : Int}
    (hinv : SessionInv st) : SessionInv (submitResponse st id) := hinv

theorem streamInv_serve200 {env : FileEnv} {s : HTTP2Stream} {fp : Str}
    (hwf : env.WF) (hsent : s.response_data_sent = 0)
    (hrc : s.request_complete = true) : StreamInv (serve200 env s fp) := by
  refine ⟨?_, ?_, fun h => ?_⟩
  · rw [show (serve200 env s fp).response_data_sent = s.response_data_sent from rfl, hsent]
    exact Nat.zero_le _
  · have := hwf fp
    have hcm : containerMax < 2 ^ 64 := by decide
    show (env.read_file fp).length < 2 ^ 64
    omega
  · exact absurd (hrc.symm.trans h) (by decide)

theorem streamInv_const500 {s : HTTP2Stream} (hsent : s.response_data_sent = 0)
    (hrc : s.request_complete = true) : StreamInv (serve500 s) :=
  ⟨by rw [show (serve500 s).response_data_sent = s.response_data_sent from rfl, hsent]
      exact Nat.zero_le _,
   (by decide : body500.length < 2 ^ 64),
   fun h => absurd (hrc.symm.trans h) (by decide)⟩

theorem streamInv_const404 {s : HTTP2Stream} (hsent : s.response_data_sent = 0)
    (hrc : s.request_complete = true) : StreamInv (serve404 s) :=
  ⟨by rw [show (serve404 s).response_data_sent = s.response_data_sent from rfl, hsent]
      exact Nat.zero_le _,
   (by decide : body404.length < 2 ^ 64),
   fun h => absurd (hrc.symm.trans h) (by decide)⟩

theorem streamInv_const405 {s : HTTP2Stream} (hsent : s.response_data_sent = 0)
    (hrc : s.request_complete = true) : StreamInv (serve405 s) :=
  ⟨by rw [show (serve405 s).response_data_sent = s.response_data_sent from rfl, hsent]
      exact Nat.zero_le _,
   (by decide : body405.length < 2 ^ 64),
   fun h => absurd (hrc.symm.trans h) (by decide)⟩

theorem streamInv_echo {s : HTTP2Stream} (hsent : s.response_data_sent = 0)
    (hrc : s.request_complete = true)
    (hle : (echoPrefix ++ s.body).length ≤ containerMax) : StreamInv (serveEcho s) := by
  refine ⟨?_, ?_, fun h => ?_⟩
  · rw [show (serveEcho s).response_data_sent = s.response_data_sent from rfl, hsent]
    exact Nat.zero_le _
  · have hcm : containerMax < 2 ^ 64 := by decide
    show (echoPrefix ++ s.body).length < 2 ^ 64
    omega
  · exact absurd (hrc.symm.trans h) (by decide)

theorem streamInv_pushed (pid : Int) (r : Str) : StreamInv (pushedStream pid r) :=
  ⟨Nat.le_refl 0, (by decide : (List.length ([] : Str)) < 2 ^ 64),
   fun h => absurd (show (true : Bool) = false from h) (by decide)⟩

theorem sessionInv_submitPush {st : HTTP2Session} {parent : Int} {r : Str}
    (hinv : SessionInv st) : SessionInv (submitPush st parent r) := by
  intro id' s' hfind
  by_cases h : id' = st.nextPromisedId
  · subst h
    rw [show (submitPush st parent r).streams
        = streamStore st.streams st.nextPromisedId (pushedStream st.nextPromisedId r)
        from rfl, streamFind?_store_self] at hfind
    exact (Option.some.inj hfind) ▸ streamInv_pushed st.nextPromisedId r
  · rw [show (submitPush st parent r).streams
        = streamStore st.streams st.nextPromisedId (pushedStream st.nextPromisedId r)
        from rfl, streamFind?_store_other _ _ _ _ h] at hfind
    exact hinv id' s' hfind

/-- Core preservation lemma: one `process_request` dispatch (with its
nested push cascade) preserves the session invariant, provided the
dispatched stream has no response body yet. -/
theorem runPR_inv (fuel : Nat) :
    ∀ (env : FileEnv) (st : HTTP2Session) (call : PRCall) (st' : HTTP2Session),
      env.WF → SessionInv st → ProcPre st call →
      runPR fuel env st call = some st' → SessionInv st' := by
  induction fuel with
  | zero =>
    intro env st call st' _ _ _ hrun
    exact Option.noConfusion hrun
  | succ fuel ih =>
    intro env st call st' hwf hinv hpre hrun
    cases call with
    | proc id =>
      simp only [runPR] at hrun
      split at hrun
      · exact (Option.some.inj hrun) ▸ hinv
      · rename_i s hfind
        have hbody : s.response_body = [] := hpre s hfind
        have hsent : s.response_data_sent = 0 := by
          have := (hinv id s hfind).1
          rw [hbody] at this
          exact Nat.le_zero.mp this
        split at hrun
        · exact (Option.some.inj hrun) ▸ hinv
        · rename_i hrc
          have hrc' : s.request_complete = true := by
            cases hx : s.request_complete
            · exact absurd hx hrc
            · rfl
          split at hrun
          · -- GET
            split at hrun
            · -- file exists
              split at hrun
              · -- read throws: 500
                exact (Option.some.inj hrun) ▸
                  sessionInv_submit (sessionInv_store hinv (streamInv_const500 hsent hrc'))
              · -- 200 response
                split at hrun
                · -- push branch
                  split at hrun
                  · exact Option.noConfusion hrun
                  · rename_i st2 hrec
                    have hinv2 := ih env _
                      (.pushes s.stream_id (identify_push_resources s.path)) st2 hwf
                      (sessionInv_store hinv (streamInv_serve200 hwf hsent hrc'))
                      trivial hrec
                    exact (Option.some.inj hrun) ▸ sessionInv_submit hinv2
                · exact (Option.some.inj hrun) ▸
                    sessionInv_submit (sessionInv_store hinv (streamInv_serve200 hwf hsent hrc'))
            · -- 404
              exact (Option.some.inj hrun) ▸
                sessionInv_submit (sessionInv_store hinv (streamInv_const404 hsent hrc'))
          · split at hrun
            · -- POST
              split at hrun
              · exact Option.noConfusion hrun
              · rename_i hle
                exact (Option.some.inj hrun) ▸
                  sessionInv_submit (sessionInv_store hinv
                    (streamInv_echo hsent hrc' (Nat.le_of_not_lt hle)))
            · -- 405
              exact (Option.some.inj hrun) ▸
                sessionInv_submit (sessionInv_store hinv (streamInv_const405 hsent hrc'))
    | pushes parent rs =>
      cases rs with
      | nil =>
        simp only [runPR] at hrun
        exact (Option.some.inj hrun) ▸ hinv
      | cons r rest =>
        simp only [runPR] at hrun
        rw [if_pos (show server_push_enabled = true from rfl)] at hrun
        split at hrun
        · exact Option.noConfusion hrun
        · rename_i st2 hrec
          have hpre2 : ProcPre (submitPush st parent r) (.proc st.nextPromisedId) := by
            intro s' hfind
            rw [show (submitPush st parent r).streams
                = streamStore st.streams st.nextPromisedId (pushedStream st.nextPromisedId r)
                from rfl, streamFind?_store_self] at hfind
            exact congrArg HTTP2Stream.response_body (Option.some.inj hfind).symm
          have hinv2 := ih env _ _ st2 hwf (sessionInv_submitPush hinv) hpre2 hrec
          exact ih env st2 (.pushes parent rest) st' hwf hinv2 trivial hrun

theorem headers_frame_inv {fuel : Nat} {env : FileEnv} {st : HTTP2Session} {id : Int}
    {eh es : Bool} {st' : HTTP2Session} (hwf : env.WF) (hinv : SessionInv st)
    (h : on_headers_frame fuel env st id eh es = some st') : SessionInv st' := by
  have hfresh : StreamInv { stream_id := id, headers_complete := eh, request_complete := es } :=
    ⟨Nat.le_refl 0, (by decide : (List.length ([] : Str)) < 2 ^ 64), fun _ => rfl⟩
  unfold on_headers_frame at h
  split at h
  · refine runPR_inv fuel env _ _ st' hwf (sessionInv_store hinv hfresh) ?_ h
    intro s' hfind
    rw [show (sessionStore st id
        { stream_id := id, headers_complete := eh, request_complete := es }).streams
        = streamStore st.streams id
          { stream_id := id, headers_complete := eh, request_complete := es } from rfl,
      streamFind?_store_self] at hfind
    exact congrArg HTTP2Stream.response_body (Option.some.inj hfind).symm
  · exact (Option.some.inj h) ▸ sessionInv_store hinv hfresh

theorem data_chunk_inv {st : HTTP2Session} {id : Int} {chunk : Str} {st' : HTTP2Session}
    (hinv : SessionInv st) (h : on_data_chunk st id chunk = some st') : SessionInv st' := by
  unfold on_data_chunk at h
  split at h
  · exact (Option.some.inj h) ▸ hinv
  · rename_i s hfind
    split at h
    · exact Option.noConfusion h
    · refine (Option.some.inj h) ▸ sessionInv_store hinv ?_
      obtain ⟨h1, h2, h3⟩ := hinv id s hfind
      exact ⟨h1, h2, fun hh => h3 hh⟩

theorem data_frame_inv {fuel : Nat} {env : FileEnv} {st : HTTP2Session} {id : Int}
    {es : Bool} {st' : HTTP2Session} (hwf : env.WF) (hinv : SessionInv st)
    (hguard : ∀ s, streamFind? st.streams id = some s → s.request_complete = false)
    (h : on_data_frame fuel env st id es = some st') : SessionInv st' := by
  unfold on_data_frame at h
  split at h
  · split at h
    · exact (Option.some.inj h) ▸ hinv
    · rename_i s hfind
      obtain ⟨h1, h2, h3⟩ := hinv id s hfind
      have hbody : s.response_body = [] := h3 (hguard s hfind)
      have hs : StreamInv { s with request_complete := true } :=
        ⟨h1, h2, fun hh => absurd (show (true : Bool) = false from hh) (by decide)⟩
      refine runPR_inv fuel env _ _ st' hwf (sessionInv_store hinv hs) ?_ h
      intro s' hfind'
      rw [show (sessionStore st id { s with request_complete := true }).streams
          = streamStore st.streams id { s with request_complete := true } from rfl,
        streamFind?_store_self] at hfind'
      rw [← Option.some.inj hfind']
      exact hbody
  · exact (Option.some.inj h) ▸ hinv

theorem stream_close_inv {st : HTTP2Session} {id : Int} (hinv : SessionInv st) :
    SessionInv (on_stream_close st id) := by
  intro id' s' hfind
  by_cases h : id' = id
  · subst h
    rw [show (on_stream_close st id').streams = streamErase st.streams id' from rfl,
      streamFind?_erase_self] at hfind
    exact Option.noConfusion hfind
  · rw [show (on_stream_close st id).streams = streamErase st.streams id from rfl,
      streamFind?_erase_other _ _ _ h] at hfind
    exact hinv id' s' hfind

theorem data_source_read_inv {st : HTTP2Session} {id : Int} {len : Nat}
    (hinv : SessionInv st) : SessionInv (data_source_read st id len) := by
  unfold data_source_read
  split
  · exact hinv
  · rename_i s hfind
    obtain ⟨h1, h2, h3⟩ := hinv id s hfind
    have hp : (2 : Nat) ^ 64 = 18446744073709551616 := by norm_num
    refine sessionInv_store hinv ⟨?_, h2, fun hh => h3 hh⟩
    show (s.response_data_sent +
        min len ((2 ^ 64 + s.response_body.length - s.response_data_sent) % 2 ^ 64)) % 2 ^ 64
      ≤ s.response_body.length
    have hmin : min len ((2 ^ 64 + s.response_body.length - s.response_data_sent) % 2 ^ 64)
        ≤ (2 ^ 64 + s.response_body.length - s.response_data_sent) % 2 ^ 64 :=
      Nat.min_le_right _ _
    rw [hp] at hmin ⊢
    omega

/-- C7: at every observable point of an HTTP/2 session (every state
reachable through the engine's callbacks from the initial empty session),
every stream `s` in the stream table satisfies
`s.response_data_sent ≤ length s.response_body`; and after
`on_stream_close_callback` runs for a stream id, the table has no entry
for that id. -/
theorem http2_stream_accounting (fuel : Nat) (env : FileEnv) (hwf : env.WF) :
    (∀ st, Reachable fuel env st → ∀ id s, streamFind? st.streams id = some s →
      s.response_data_sent ≤ s.response_body.length) ∧
    (∀ st id, streamFind? (on_stream_close st id).streams id = none) := by
  constructor
  · have main : ∀ st, Reachable fuel env st → SessionInv st := by
      intro st hreach
      induction hreach with
      | init => intro id s h; exact Option.noConfusion h
      | headers st0 id eh es st' hr hstep ih => exact headers_frame_inv hwf ih hstep
      | dataChunk st0 id chunk st' hr hguard hstep ih => exact data_chunk_inv ih hstep
      | dataFrame st0 id es st' hr hguard hstep ih => exact data_frame_inv hwf ih hguard hstep
      | close st0 id hr ih => exact stream_close_inv ih
      | read st0 id len hr ih => exact data_source_read_inv ih
    intro st hreach id s hfind
    exact (main st hreach id s hfind).1
  · intro st id
    exact streamFind?_erase_self st.streams id

/-- Closed witness for C7: the invariant holds on a concrete reachable
state (after one HEADERS frame), and closing a stream removes it. -/
theorem http2_stream_accounting_witness :
    ({ stream_id := 1, headers_complete := true } : HTTP2Stream).response_data_sent ≤
      ({ stream_id := 1, headers_complete := true } : HTTP2Stream).response_body.length ∧
    streamFind?
      (on_stream_close (sessionStore {} 1 { stream_id := 1, headers_complete := true })
        1).streams 1 = none :=
  ⟨(http2_stream_accounting 1 emptyFileEnv (fun _ => Nat.zero_le _)).1
      (sessionStore {} 1 { stream_id := 1, headers_complete := true })
      (Reachable.headers {} 1 true false
        (sessionStore {} 1 { stream_id := 1, headers_complete := true })
        Reachable.init (by rfl))
      1 { stream_id := 1, headers_complete := true } (by rfl),
   (http2_stream_accounting 1 emptyFileEnv (fun _ => Nat.zero_le _)).2
      (sessionStore {} 1 { stream_id := 1, headers_complete := true }) 1⟩

theorem mapFind?_store_self (m : List (Str × Str)) (k v : Str) :
    mapFind? (mapStore m k v) k = some v := by
  induction m with
  | nil => simp [mapStore, mapFind?]
  | cons p rest ih =>
    rcases p with ⟨k0, v0⟩
    by_cases h : k0 = k
    · simp [mapStore, mapFind?, h]
    · simp [mapStore, mapFind?, h, ih]

theorem mapFindD_store (m : List (Str × Str)) (k v d : Str) :
    mapFindD (mapStore m k v) k d = v := by
  unfold mapFindD
  rw [mapFind?_store_self]
  rfl

theorem lastDotSuffix_append (a b : Str) (h : '.' ∈ b) :
    lastDotSuffix (a ++ b) = lastDotSuffix b := by
  induction a with
  | nil => rfl
  | cons c cs ih =>
    show lastDotSuffix (c :: (cs ++ b)) = lastDotSuffix b
    rw [show lastDotSuffix (c :: (cs ++ b))
        = if '.' ∈ (cs ++ b) then lastDotSuffix (cs ++ b)
          else if c = '.' then c :: (cs ++ b) else [] from rfl]
    rw [if_pos (List.mem_append.mpr (Or.inr h))]
    exact ih

theorem mime_of_index (docroot : Str) :
    get_mime_type (docroot ++ "/index.html".toList) = "text/html".toList := by
  unfold get_mime_type
  rw [lastDotSuffix_append _ _ (by decide)]
  decide

theorem mime_of_demo (docroot : Str) :
    get_mime_type (docroot ++ "/demo.html".toList) = "text/html".toList := by
  unfold get_mime_type
  rw [lastDotSuffix_append _ _ (by decide)]
  decide

theorem mime_of_style (docroot : Str) :
    get_mime_type (docroot ++ "/style.css".toList) = "text/css".toList := by
  unfold get_mime_type
  rw [lastDotSuffix_append _ _ (by decide)]
  decide

theorem http2FilePath_index (env : FileEnv) {p : Str}
    (hp : p = "/".toList ∨ p = "/index.html".toList) :
    http2FilePath env p = env.document_root ++ "/index.html".toList := by
  rcases hp with hp | hp <;> subst hp
  · unfold http2FilePath
    rw [if_pos rfl]
  · unfold http2FilePath
    rw [if_neg (by decide)]

/-- One evaluation step of `process_request` for a complete GET request. -/
theorem proc_get_eq (fuel : Nat) (env : FileEnv) (st : HTTP2Session) (id : Int)
    (s : HTTP2Stream) (hfind : streamFind? st.streams id = some s)
    (hrc : s.request_complete = true) (hm : s.method = "GET".toList) :
    runPR (fuel + 1) env st (.proc id) =
      (if env.file_exists (http2FilePath env s.path) = true then
        if env.read_throws (http2FilePath env s.path) = true then
          some (submitResponse (sessionStore st id (serve500 s)) id)
        else
          if (serve200 env s (http2FilePath env s.path)).push_enabled && server_push_enabled
              && decide (mapFindD (serve200 env s (http2FilePath env s.path)).response_headers
                  ctKey [] = "text/html".toList) then
            match runPR fuel env (sessionStore st id (serve200 env s (http2FilePath env s.path)))
                (.pushes s.stream_id (identify_push_resources s.path)) with
            | none => none
            | some st2 => some (submitResponse st2 id)
          else
            some (submitResponse
              (sessionStore st id (serve200 env s (http2FilePath env s.path))) id)
      else some (submitResponse (sessionStore st id (serve404 s)) id)) := by
  simp only [runPR, hfind]
  rw [if_neg (show ¬ s.request_complete = false by simp [hrc]), if_pos hm]

/-- One evaluation step of the push loop on a non-empty resource list. -/
theorem pushes_cons_eq (fuel : Nat) (env : FileEnv) (st : HTTP2Session) (parent : Int)
    (r : Str) (rs : List Str) :
    runPR (fuel + 1) env st (.pushes parent (r :: rs)) =
      (match runPR fuel env (submitPush st parent r) (.proc st.nextPromisedId) with
       | none => none
       | some st2 => runPR fuel env st2 (.pushes parent rs)) := by
  simp only [runPR]
  rw [if_pos (show server_push_enabled = true from rfl)]

/-- The push loop on an empty resource list is the identity. -/
theorem pushes_nil_eq (fuel : Nat) (env : FileEnv) (st : HTTP2Session) (parent : Int) :
    runPR (fuel + 1) env st (.pushes parent []) = some st := by
  simp only [runPR]

/-- Processing a complete GET for `/style.css` submits no push promise
(the MIME type is `text/css`, not `text/html`) and leaves the promised-id
counter unchanged, whether the file exists, is missing, or throws. -/
theorem proc_css_no_push (fuel : Nat) (env : FileEnv) (st : HTTP2Session) (id : Int)
    (s : HTTP2Stream) (hfind : streamFind? st.streams id = some s)
    (hrc : s.request_complete = true) (hm : s.method = "GET".toList)
    (hp : s.path = "/style.css".toList) :
    ∃ st', runPR (fuel + 1) env st (.proc id) = some st' ∧
      st'.pushEvents = st.pushEvents ∧ st'.nextPromisedId = st.nextPromisedId := by
  rw [proc_get_eq fuel env st id s hfind hrc hm]
  have hfp : http2FilePath env s.path = env.document_root ++ "/style.css".toList := by
    rw [hp]
    unfold http2FilePath
    rw [if_neg (by decide)]
  have hmime : mapFindD (serve200 env s (http2FilePath env s.path)).response_headers ctKey []
      = "text/css".toList := by
    rw [show (serve200 env s (http2FilePath env s.path)).response_headers
        = mapStore s.response_headers ctKey (get_mime_type (http2FilePath env s.path))
        from rfl]
    rw [mapFindD_store, hfp]
    exact mime_of_style env.document_root
  have hcond : ((serve200 env s (http2FilePath env s.path)).push_enabled && server_push_enabled
      && decide (mapFindD (serve200 env s (http2FilePath env s.path)).response_headers
          ctKey [] = "text/html".toList)) = false := by
    rw [hmime]
    simp
  rw [hcond]
  split
  · split
    · exact ⟨_, rfl, rfl, rfl⟩
    · rw [if_neg (by decide : ¬ false = true)]
      exact ⟨_, rfl, rfl, rfl⟩
  · exact ⟨_, rfl, rfl, rfl⟩

/-- Processing a complete GET for `/demo.html` (push enabled) submits at
most one push promise, for `/style.css`, with the demo stream itself as
parent. -/
theorem proc_demo_html (fuel : Nat) (env : FileEnv) (st : HTTP2Session) (id : Int)
    (s : HTTP2Stream) (hfind : streamFind? st.streams id = some s)
    (hrc : s.request_complete = true) (hm : s.method = "GET".toList)
    (hp : s.path = "/demo.html".toList) (hpe : s.push_enabled = true) :
    ∃ st', runPR (fuel + 3) env st (.proc id) = some st' ∧
      (st'.pushEvents = st.pushEvents ∨
        st'.pushEvents = st.pushEvents ++ [(s.stream_id, "/style.css".toList)]) := by
  rw [show fuel + 3 = (fuel + 2) + 1 from rfl,
    proc_get_eq (fuel + 2) env st id s hfind hrc hm]
  have hfp : http2FilePath env s.path = env.document_root ++ "/demo.html".toList := by
    rw [hp]
    unfold http2FilePath
    rw [if_neg (by decide)]
  split
  · split
    · exact ⟨_, rfl, Or.inl rfl⟩
    · have hmime : mapFindD (serve200 env s (http2FilePath env s.path)).response_headers
          ctKey [] = "text/html".toList := by
        rw [show (serve200 env s (http2FilePath env s.path)).response_headers
            = mapStore s.response_headers ctKey (get_mime_type (http2FilePath env s.path))
            from rfl]
        rw [mapFindD_store, hfp]
        exact mime_of_demo env.document_root
      have hcond : ((serve200 env s (http2FilePath env s.path)).push_enabled
          && server_push_enabled
          && decide (mapFindD (serve200 env s (http2FilePath env s.path)).response_headers
              ctKey [] = "text/html".toList)) = true := by
        rw [hmime]
        simp [show (serve200 env s (http2FilePath env s.path)).push_enabled = s.push_enabled
          from rfl, hpe, server_push_enabled]
      rw [hcond, if_pos rfl]
      rw [show identify_push_resources s.path = ["/style.css".toList] by rw [hp]; decide]
      obtain ⟨st2, hA, hev2, _⟩ := proc_css_no_push fuel env
        (submitPush (sessionStore st id (serve200 env s (http2FilePath env s.path)))
          s.stream_id ("/style.css".toList))
        (sessionStore st id (serve200 env s (http2FilePath env s.path))).nextPromisedId
        (pushedStream
          (sessionStore st id (serve200 env s (http2FilePath env s.path))).nextPromisedId
          ("/style.css".toList))
        (streamFind?_store_self _ _ _) rfl rfl rfl
      have hchain : runPR (fuel + 2) env
          (sessionStore st id (serve200 env s (http2FilePath env s.path)))
          (.pushes s.stream_id ["/style.css".toList]) = some st2 := by
        rw [pushes_cons_eq (fuel + 1) env _ s.stream_id _ []]
        rw [hA]
        show runPR (fuel + 1) env st2 (.pushes s.stream_id []) = some st2
        exact pushes_nil_eq fuel env st2 s.stream_id
      rw [hchain]
      refine ⟨submitResponse st2 id, rfl, Or.inr ?_⟩
      rw [show (submitResponse st2 id).pushEvents = st2.pushEvents from rfl, hev2]
      rfl
  · exact ⟨_, rfl, Or.inl rfl⟩

/-- C3 counterexample: a complete `GET /` on a push-enabled stream whose
file is missing produces a 404 response whose content type is
`text/html`, yet the engine submits no push promise at all — push runs
only in the successful 200 file-serving branch. -/
theorem push_promise_404_counterexample :
    runPR 5 emptyFileEnv c3Session (.proc 1) =
      some (submitResponse (sessionStore c3Session 1 (serve404 c3Stream)) 1) ∧
    mapFindD (serve404 c3Stream).response_headers ctKey [] = "text/html".toList ∧
    c3Stream.push_enabled = true ∧
    (submitResponse (sessionStore c3Session 1 (serve404 c3Stream)) 1).pushEvents = [] :=
  ⟨by rfl, by rfl, rfl, rfl⟩

/-- C3 amended: for every complete HTTP/2 `GET` for `/` or `/index.html`
on a push-enabled stream whose response is a successful (200) file
response — its content type is then `text/html` — the engine submits push
promises with the request's stream as parent for exactly `/style.css` and
`/demo.html`, in that order.  (Processing the pushed `/demo.html` stream
may additionally submit a promise for `/style.css` whose parent is the
promised `/demo.html` stream, not the request's stream.) -/
theorem index_push_promises (k : Nat) (env : FileEnv) (st : HTTP2Session) (id : Int)
    (s : HTTP2Stream)
    (hfind : streamFind? st.streams id = some s)
    (hm : s.method = "GET".toList)
    (hp : s.path = "/".toList ∨ s.path = "/index.html".toList)
    (hrc : s.request_complete = true)
    (hpe : s.push_enabled = true)
    (hex : env.file_exists (env.document_root ++ "/index.html".toList) = true)
    (hth : env.read_throws (env.document_root ++ "/index.html".toList) = false)
    (hid : s.stream_id < st.nextPromisedId) :
    ∃ st', runPR (k + 6) env st (.proc id) = some st' ∧
      pushesWithParent (st'.pushEvents.drop st.pushEvents.length) s.stream_id =
        ["/style.css".toList, "/demo.html".toList] := by
  have hfp := http2FilePath_index env hp
  rw [show k + 6 = (k + 5) + 1 from rfl, proc_get_eq (k + 5) env st id s hfind hrc hm]
  rw [hfp, if_pos hex,
    if_neg (show ¬ env.read_throws (env.document_root ++ "/index.html".toList) = true by
      rw [hth]; exact Bool.false_ne_true)]
  have hmime : mapFindD
      (serve200 env s (env.document_root ++ "/index.html".toList)).response_headers
      ctKey [] = "text/html".toList := by
    rw [show (serve200 env s (env.document_root ++ "/index.html".toList)).response_headers
        = mapStore s.response_headers ctKey
            (get_mime_type (env.document_root ++ "/index.html".toList)) from rfl]
    rw [mapFindD_store]
    exact mime_of_index env.document_root
  have hcond : ((serve200 env s (env.document_root ++ "/index.html".toList)).push_enabled
      && server_push_enabled
      && decide (mapFindD
          (serve200 env s (env.document_root ++ "/index.html".toList)).response_headers
          ctKey [] = "text/html".toList)) = true := by
    rw [show (serve200 env s (env.document_root ++ "/index.html".toList)).push_enabled
      = s.push_enabled from rfl, hpe, decide_eq_true hmime]
    rfl
  rw [hcond, if_pos rfl]
  rw [show identify_push_resources s.path
      = ["/style.css".toList, "/demo.html".toList] by
    rcases hp with hp | hp <;> rw [hp] <;> decide]
  obtain ⟨st2, hA, hev2, hnp2⟩ := proc_css_no_push (k + 3) env
    (submitPush (sessionStore st id
        (serve200 env s (env.document_root ++ "/index.html".toList)))
      s.stream_id ("/style.css".toList))
    (sessionStore st id
      (serve200 env s (env.document_root ++ "/index.html".toList))).nextPromisedId
    (pushedStream (sessionStore st id
        (serve200 env s (env.document_root ++ "/index.html".toList))).nextPromisedId
      ("/style.css".toList))
    (streamFind?_store_self _ _ _) rfl rfl rfl
  rw [show k + 3 + 1 = (k + 3) + 1 from rfl] at hA
  obtain ⟨st3, hB, hev3⟩ := proc_demo_html k env
    (submitPush st2 s.stream_id ("/demo.html".toList))
    st2.nextPromisedId
    (pushedStream st2.nextPromisedId ("/demo.html".toList))
    (streamFind?_store_self _ _ _) rfl rfl rfl rfl
  have hchain : runPR (k + 5) env
      (sessionStore st id (serve200 env s (env.document_root ++ "/index.html".toList)))
      (.pushes s.stream_id ["/style.css".toList, "/demo.html".toList]) = some st3 := by
    rw [show k + 5 = (k + 4) + 1 from rfl]
    rw [pushes_cons_eq (k + 4) env _ s.stream_id _ _]
    rw [show k + 4 = (k + 3) + 1 from rfl]
    rw [hA]
    show runPR ((k + 3) + 1) env st2 (.pushes s.stream_id ["/demo.html".toList]) = some st3
    rw [pushes_cons_eq (k + 3) env st2 s.stream_id _ []]
    rw [hB]
    show runPR (k + 3) env st3 (.pushes s.stream_id []) = some st3
    rw [show k + 3 = (k + 2) + 1 from rfl]
    exact pushes_nil_eq (k + 2) env st3 s.stream_id
  rw [hchain]
  refine ⟨submitResponse st3 id, rfl, ?_⟩
  rcases hev3 with hev3 | hev3
  · have he : (submitResponse st3 id).pushEvents
        = st.pushEvents ++ [(s.stream_id, "/style.css".toList),
            (s.stream_id, "/demo.html".toList)] := by
      show st3.pushEvents = _
      rw [hev3]
      show st2.pushEvents ++ [(s.stream_id, "/demo.html".toList)] = _
      rw [hev2]
      show (st.pushEvents ++ [(s.stream_id, "/style.css".toList)])
          ++ [(s.stream_id, "/demo.html".toList)] = _
      rw [List.append_assoc]
      rfl
    rw [he, List.drop_left]
    simp [pushesWithParent]
  · have hne : ¬ (st2.nextPromisedId = s.stream_id) := by
      rw [hnp2]
      show ¬ ((sessionStore st id
          (serve200 env s (env.document_root ++ "/index.html".toList))).nextPromisedId + 2
        = s.stream_id)
      show ¬ (st.nextPromisedId + 2 = s.stream_id)
      omega
    have he : (submitResponse st3 id).pushEvents
        = st.pushEvents ++ ([(s.stream_id, "/style.css".toList),
            (s.stream_id, "/demo.html".toList)]
          ++ [((pushedStream st2.nextPromisedId ("/demo.html".toList)).stream_id,
              "/style.css".toList)]) := by
      show st3.pushEvents = _
      rw [hev3]
      show (st2.pushEvents ++ [(s.stream_id, "/demo.html".toList)])
          ++ [((pushedStream st2.nextPromisedId ("/demo.html".toList)).stream_id,
              "/style.css".toList)] = _
      rw [hev2]
      show ((st.pushEvents ++ [(s.stream_id, "/style.css".toList)])
          ++ [(s.stream_id, "/demo.html".toList)])
          ++ [((pushedStream st2.nextPromisedId ("/demo.html".toList)).stream_id,
              "/style.css".toList)] = _
      rw [List.append_assoc, List.append_assoc]
      rfl
    rw [he, List.drop_left]
    simp [pushesWithParent, pushedStream, hne]

/-- Closed witness for the C3 amended theorem: on a file system where
every file exists, a complete `GET /` on stream 1 yields the two promises
with parent 1. -/
theorem index_push_promises_witness :
    ∃ st', runPR 7 allFilesEnv c3Session (.proc 1) = some st' ∧
      pushesWithParent (st'.pushEvents.drop c3Session.pushEvents.length) c3Stream.stream_id =
        ["/style.css".toList, "/demo.html".toList] :=
  index_push_promises 1 allFilesEnv c3Session 1 c3Stream (by rfl) rfl (Or.inl rfl)
    rfl rfl rfl rfl (by decide)

theorem toNat_ofNat_valid (n : Nat) (h : n.isValidChar) : (Char.ofNat n).toNat = n := by
  simp [Char.ofNat, h, Char.ofNatAux, Char.toNat, UInt32.toNat]

theorem char_le_iff (a b : Char) : a ≤ b ↔ a.toNat ≤ b.toNat := by
  rw [Char.le_def, UInt32.le_def, BitVec.le_def]; rfl

theorem upperAlpha_cToLower (c : Char) : upperAlpha (cToLower c) = false := by
  unfold cToLower upperAlpha
  split
  · rename_i h
    have h2 : c.toNat ≤ 90 := by
      have h2' := (char_le_iff c 'Z').mp h.2
      rw [show ('Z' : Char).toNat = 90 from by decide] at h2'
      exact h2'
    have hv : (c.toNat + 32).isValidChar := Or.inl (by omega)
    have ht : (Char.ofNat (c.toNat + 32)).toNat = c.toNat + 32 := toNat_ofNat_valid _ hv
    have hz : ¬ (Char.ofNat (c.toNat + 32) ≤ 'Z') := by
      rw [char_le_iff, ht, show ('Z' : Char).toNat = 90 from by decide]
      have h1 : 65 ≤ c.toNat := by
        have h1' := (char_le_iff 'A' c).mp h.1
        rw [show ('A' : Char).toNat = 65 from by decide] at h1'
        exact h1'
      omega
    simp [hz]
  · rename_i h
    simp only [Bool.and_eq_false_iff, decide_eq_false_iff_not]
    by_cases h1 : 'A' ≤ c
    · exact Or.inr fun h2 => h ⟨h1, h2⟩
    · exact Or.inl h1

theorem upperAlpha_cToUpper (c : Char) (h : asciiAlpha c = true) :
    upperAlpha (cToUpper c) = true := by
  unfold cToUpper
  split
  · rename_i hl
    have h1 : 97 ≤ c.toNat := by
      have h1' := (char_le_iff 'a' c).mp hl.1
      rw [show ('a' : Char).toNat = 97 from by decide] at h1'
      exact h1'
    have h2 : c.toNat ≤ 122 := by
      have h2' := (char_le_iff c 'z').mp hl.2
      rw [show ('z' : Char).toNat = 122 from by decide] at h2'
      exact h2'
    have hv : (c.toNat - 32).isValidChar := Or.inl (by omega)
    have ht : (Char.ofNat (c.toNat - 32)).toNat = c.toNat - 32 := toNat_ofNat_valid _ hv
    have hA : 'A' ≤ Char.ofNat (c.toNat - 32) := by
      rw [char_le_iff, ht, show ('A' : Char).toNat = 65 from by decide]; omega
    have hZ : Char.ofNat (c.toNat - 32) ≤ 'Z' := by
      rw [char_le_iff, ht, show ('Z' : Char).toNat = 90 from by decide]; omega
    simp [upperAlpha, hA, hZ]
  · rename_i hl
    unfold asciiAlpha at h
    unfold upperAlpha
    simp only [Bool.or_eq_true, Bool.and_eq_true, decide_eq_true_eq] at h
    rcases h with h | h
    · simp [h.1, h.2]
    · exact absurd h hl

theorem wsChar_of_alpha (c : Char) (h : asciiAlpha c = true) : wsChar c = false := by
  have hgt : 32 < c.toNat := by
    unfold asciiAlpha at h
    simp only [Bool.or_eq_true, Bool.and_eq_true, decide_eq_true_eq] at h
    rcases h with h | h
    · have h1' := (char_le_iff 'A' c).mp h.1
      rw [show ('A' : Char).toNat = 65 from by decide] at h1'
      omega
    · have h1' := (char_le_iff 'a' c).mp h.1
      rw [show ('a' : Char).toNat = 97 from by decide] at h1'
      omega
  have hne : ∀ d : Char, d.toNat ≤ 32 → c ≠ d := by
    intro d hd he
    rw [he] at hgt
    omega
  unfold wsChar
  simp [hne ' ' (by decide), hne '\t' (by decide), hne '\n' (by decide),
    hne '\x0b' (by decide), hne '\x0c' (by decide), hne '\r' (by decide)]

theorem ne_of_not_ws (c : Char) (h : wsChar c = false) : c ≠ '\n' := by
  intro he
  rw [he] at h
  exact absurd h (by decide)

theorem splitDelim_append_delim (d : Char) (l rest : Str) (h : ∀ c ∈ l, c ≠ d) :
    splitDelim d (l ++ d :: rest) = l :: splitDelim d rest := by
  induction l with
  | nil => simp [splitDelim]
  | cons c cs ih =>
    have hc : c ≠ d := h c (by simp)
    rw [List.cons_append]
    rw [show splitDelim d (c :: (cs ++ d :: rest))
        = if c = d then [] :: splitDelim d (cs ++ d :: rest)
          else
            match splitDelim d (cs ++ d :: rest) with
            | [] => [[c]]
            | l :: ls => (c :: l) :: ls from rfl]
    rw [if_neg hc, ih fun x hx => h x (by simp [hx])]

theorem stripCR_concat (l : Str) : stripCR (l ++ ['\r']) = l := by
  unfold stripCR
  rw [List.getLast?_concat]
  simp [List.dropLast_concat]

theorem splitDelim_cr_crlf (X : Str) :
    splitDelim '\n' ('\r' :: ('\n' :: X)) = ['\r'] :: splitDelim '\n' X := by
  simp [splitDelim]

theorem splitHeaders (hdrs : List (Str × Str)) (tail : Str)
    (hh : ∀ p ∈ hdrs, (∀ c ∈ p.1, c ≠ '\n') ∧ ∀ c ∈ p.2, c ≠ '\n') :
    splitDelim '\n' ((hdrs.map renderHeader).flatten ++ tail)
      = (hdrs.map fun p => headerLineOf p ++ ['\r']) ++ splitDelim '\n' tail := by
  induction hdrs with
  | nil => rfl
  | cons p ps ih =>
    have hnl : ∀ c ∈ headerLineOf p ++ ['\r'], c ≠ '\n' := by
      intro c hc
      rcases List.mem_append.mp hc with hc | hc
      · unfold headerLineOf at hc
        rcases List.mem_append.mp hc with hc | hc
        · exact (hh p (List.mem_cons_self p ps)).1 c hc
        · rcases List.mem_cons.mp hc with rfl | hc
          · decide
          · rcases List.mem_cons.mp hc with rfl | hc
            · decide
            · exact (hh p (List.mem_cons_self p ps)).2 c hc
      · rcases List.mem_cons.mp hc with rfl | hc
        · decide
        · exact absurd hc (List.not_mem_nil c)
    rw [List.map_cons, List.flatten_cons, List.map_cons]
    rw [show renderHeader p = (headerLineOf p ++ ['\r']) ++ ['\n'] from rfl]
    rw [List.append_assoc, List.append_assoc]
    rw [show (['\n'] ++ ((ps.map renderHeader).flatten ++ tail) : Str)
        = '\n' :: ((ps.map renderHeader).flatten ++ tail) from rfl]
    rw [splitDelim_append_delim '\n' _ _ hnl]
    rw [ih fun q hq => hh q (List.mem_cons_of_mem p hq)]
    rfl

theorem tokens_single (t : Str) (h1 : t ≠ []) (h2 : ∀ c ∈ t, wsChar c = false) :
    tokens t = [t] := by
  induction t with
  | nil => exact absurd rfl h1
  | cons c cs ih =>
    cases cs with
    | nil => simp [tokens, h2 c (by simp)]
    | cons c2 cs2 =>
      have hc : wsChar c = false := h2 c (by simp)
      have hc2 : wsChar c2 = false := h2 c2 (by simp)
      have ih2 : tokens (c2 :: cs2) = [c2 :: cs2] :=
        ih (by simp) fun x hx => h2 x (by simp [hx])
      simp [tokens, hc, hc2, ih2]

theorem tokens_append (t rest : Str) (h1 : t ≠ []) (h2 : ∀ c ∈ t, wsChar c = false) :
    tokens (t ++ (' ' :: rest)) = t :: tokens rest := by
  induction t with
  | nil => exact absurd rfl h1
  | cons c cs ih =>
    cases cs with
    | nil =>
      have hc : wsChar c = false := h2 c (by simp)
      simp [tokens, hc, show wsChar ' ' = true from by decide]
    | cons c2 cs2 =>
      have hc : wsChar c = false := h2 c (by simp)
      have hc2 : wsChar c2 = false := h2 c2 (by simp)
      have ih2 : tokens ((c2 :: cs2) ++ (' ' :: rest)) = (c2 :: cs2) :: tokens rest :=
        ih (by simp) fun x hx => h2 x (by simp [hx])
      simp only [List.cons_append] at ih2 ⊢
      simp [tokens, hc, hc2, ih2]

theorem takeWhile_append_cons {α : Type} (p : α → Bool) (l : List α) (y : α) (ys : List α)
    (h : ∀ x ∈ l, p x = true) (hy : p y = false) :
    (l ++ y :: ys).takeWhile p = l := by
  induction l with
  | nil => simp [List.takeWhile_cons, hy]
  | cons a as ih =>
    rw [List.cons_append, List.takeWhile_cons, if_pos (h a (by simp))]
    rw [ih fun x hx => h x (by simp [hx])]

theorem parse_header_line_wf (r : HttpRequest) (p : Str × Str)
    (hk : trim p.1 ≠ []) (hc : ∀ c ∈ p.1, c ≠ ':') :
    parse_header_line r (headerLineOf p)
      = ({ r with headers :=
            mapStore r.headers ((trim p.1).map cToLower) (trim (' ' :: p.2)) }, true) := by
  have hpre : (headerLineOf p).takeWhile (· ≠ ':') = p.1 := by
    unfold headerLineOf
    exact takeWhile_append_cons _ p.1 ':' (' ' :: p.2)
      (fun x hx => decide_eq_true (hc x hx)) (by simp)
  have hc1 : ¬ (p.1.length = (headerLineOf p).length) := by
    unfold headerLineOf
    simp only [List.length_append, List.length_cons]
    omega
  have hc2 : ¬ (p.1.length = 0) := by
    intro h0
    rw [List.length_eq_zero.mp h0] at hk
    exact hk rfl
  have hdrop : (headerLineOf p).drop (p.1.length + 1) = ' ' :: p.2 := by
    unfold headerLineOf
    rw [← List.drop_drop, List.drop_left]
    rfl
  simp only [parse_header_line]
  rw [hpre, hdrop, if_neg hc1, if_neg hc2, if_neg hk]

theorem mem_mapStore (m : List (Str × Str)) (k v : Str) :
    ∀ kv ∈ mapStore m k v, kv.1 = k ∨ kv ∈ m := by
  induction m with
  | nil =>
    intro kv hkv
    simp [mapStore] at hkv
    simp [hkv]
  | cons q ps ih =>
    obtain ⟨k0, v0⟩ := q
    intro kv hkv
    rw [show mapStore ((k0, v0) :: ps) k v
        = if k0 = k then (k0, v) :: ps else (k0, v0) :: mapStore ps k v from rfl] at hkv
    split at hkv
    · rename_i heq
      rcases List.mem_cons.mp hkv with rfl | hkv
      · exact Or.inl heq
      · exact Or.inr (List.mem_cons_of_mem _ hkv)
    · rcases List.mem_cons.mp hkv with rfl | hkv
      · exact Or.inr (List.mem_cons_self _ _)
      · rcases ih kv hkv with h | h
        · exact Or.inl h
        · exact Or.inr (List.mem_cons_of_mem _ h)

theorem parseHeaderLoop_cons_ok (r r1 : HttpRequest) (line : Str) (rest : List Str)
    (hne : stripCR line ≠ []) (hph : parse_header_line r (stripCR line) = (r1, true)) :
    parseHeaderLoop r (line :: rest) = parseHeaderLoop r1 rest := by
  simp only [parseHeaderLoop]
  rw [if_neg hne, hph]

theorem parseHeaderLoop_cons_fail (r r1 : HttpRequest) (line : Str) (rest : List Str)
    (hne : stripCR line ≠ []) (hph : parse_header_line r (stripCR line) = (r1, false)) :
    parseHeaderLoop r (line :: rest) = (r1, false) := by
  simp only [parseHeaderLoop]
  rw [if_neg hne, hph]

theorem parseHeaderLoop_cons_blank (r : HttpRequest) (line : Str) (rest : List Str)
    (hbl : stripCR line = []) :
    parseHeaderLoop r (line :: rest) = setValid { r with body := joinLines rest } := by
  simp only [parseHeaderLoop]
  rw [if_pos hbl]

theorem setValid_of_nonempty (r : HttpRequest) (h1 : r.method ≠ []) (h2 : r.path ≠ [])
    (h3 : r.version ≠ []) : setValid r = ({ r with valid := true }, true) := by
  simp only [setValid]
  rw [show (!r.method.isEmpty && !r.path.isEmpty && !r.version.isEmpty) = true from by
    simp only [Bool.and_eq_true, Bool.not_eq_true', List.isEmpty_eq_false]
    exact ⟨⟨h1, h2⟩, h3⟩]

theorem parseHeaderLoop_wf (hdrs : List (Str × Str)) :
    ∀ (rest : List Str) (r : HttpRequest),
      (∀ p ∈ hdrs, trim p.1 ≠ [] ∧ ∀ c ∈ p.1, c ≠ ':') →
      ∃ r2, parseHeaderLoop r ((hdrs.map fun p => headerLineOf p ++ ['\r']) ++ rest)
          = parseHeaderLoop r2 rest ∧
        r2.method = r.method ∧ r2.path = r.path ∧ r2.version = r.version ∧
        ((∀ kv ∈ r.headers, ∀ c ∈ kv.1, upperAlpha c = false) →
          ∀ kv ∈ r2.headers, ∀ c ∈ kv.1, upperAlpha c = false) := by
  induction hdrs with
  | nil =>
    intro rest r _
    exact ⟨r, rfl, rfl, rfl, rfl, fun h => h⟩
  | cons p ps ih =>
    intro rest r hh
    have hne0 : headerLineOf p ≠ [] := by
      unfold headerLineOf
      simp
    have hstep := parse_header_line_wf r p (hh p (List.mem_cons_self p ps)).1
      fun c hc => (hh p (List.mem_cons_self p ps)).2 c hc
    obtain ⟨r2, hrec, hm2, hp2, hv2, hk2⟩ :=
      ih rest
        { r with headers := mapStore r.headers ((trim p.1).map cToLower) (trim (' ' :: p.2)) }
        fun q hq => hh q (List.mem_cons_of_mem p hq)
    refine ⟨r2, ?_, ?_, ?_, ?_, ?_⟩
    · rw [List.map_cons, List.cons_append,
        parseHeaderLoop_cons_ok r
          { r with headers := mapStore r.headers ((trim p.1).map cToLower) (trim (' ' :: p.2)) }
          (headerLineOf p ++ ['\r'])
          ((ps.map fun q => headerLineOf q ++ ['\r']) ++ rest)
          (by rw [stripCR_concat]; exact hne0)
          (by rw [stripCR_concat]; exact hstep)]
      exact hrec
    · rw [hm2]
    · rw [hp2]
    · rw [hv2]
    · intro hbase
      refine hk2 ?_
      intro kv hkv c hc
      have hkv2 : kv ∈ mapStore r.headers ((trim p.1).map cToLower) (trim (' ' :: p.2)) := hkv
      rcases mem_mapStore _ _ _ kv hkv2 with he | he
      · rw [he] at hc
        obtain ⟨a, _, rfl⟩ := List.mem_map.mp hc
        exact upperAlpha_cToLower a
      · exact hbase kv he c hc

theorem parse_header_line_malformed (r : HttpRequest) (l : Str)
    (h : malformedHeaderLine l) : (parse_header_line r (stripCR l)).2 = false := by
  unfold malformedHeaderLine at h
  simp only [parse_header_line]
  rcases h with h | h
  · rw [if_pos h]
  · by_cases h1 : ((stripCR l).takeWhile (· ≠ ':')).length = (stripCR l).length
    · rw [if_pos h1]
    · rw [if_neg h1]
      by_cases h2 : ((stripCR l).takeWhile (· ≠ ':')).length = 0
      · rw [if_pos h2]
      · rw [if_neg h2, if_pos h]

theorem parseHeaderLoop_malformed (lines : List Str) :
    ∀ r : HttpRequest,
      (∃ l ∈ lines.takeWhile (fun l => !(stripCR l).isEmpty), malformedHeaderLine l) →
      (parseHeaderLoop r lines).2 = false := by
  induction lines with
  | nil =>
    intro r h
    simp at h
  | cons line rest ih =>
    intro r h
    by_cases hbl : stripCR line = []
    · rcases h with ⟨l, hl, hml⟩
      rw [List.takeWhile_cons, if_neg (by simp [hbl])] at hl
      exact absurd hl (List.not_mem_nil l)
    · rcases hph : parse_header_line r (stripCR line) with ⟨r1, flag⟩
      cases flag with
      | false => rw [parseHeaderLoop_cons_fail r r1 line rest hbl hph]
      | true =>
        rw [parseHeaderLoop_cons_ok r r1 line rest hbl hph]
        rcases h with ⟨l, hl, hml⟩
        rw [List.takeWhile_cons,
          if_pos (by simp [List.isEmpty_eq_false, hbl])] at hl
        rcases List.mem_cons.mp hl with rfl | hl
        · have hml2 := parse_header_line_malformed r l hml
          rw [hph] at hml2
          have hml3 : (true : Bool) = false := hml2
          exact absurd hml3 (by decide)
        · exact ih r1 ⟨l, hl, hml⟩

theorem c5_success (w : WFRequest) (hwf : WellFormed w) :
    ∃ r, HttpRequest.parse (render w) = .ok (r, true) ∧
      (∀ c ∈ r.method, upperAlpha c = true) ∧
      r.path.head? = some '/' ∧
      ∀ kv ∈ r.headers, ∀ c ∈ kv.1, upperAlpha c = false := by
  obtain ⟨hm, hma, hth, hta, hv, hva, hh⟩ := hwf
  have htne : w.target ≠ [] := by
    intro h0
    rw [h0] at hth
    exact Option.noConfusion hth
  have hmws : ∀ c ∈ w.method, wsChar c = false := fun c hc => wsChar_of_alpha c (hma c hc)
  have htws : ∀ c ∈ w.target, wsChar c = false := fun c hc => (hta c hc).1
  have hnlreq : ∀ c ∈ reqLine w ++ ['\r'], c ≠ '\n' := by
    intro c hc
    rcases List.mem_append.mp hc with hc | hc
    · unfold reqLine at hc
      rcases List.mem_append.mp hc with hc | hc
      · exact ne_of_not_ws c (hmws c hc)
      · rcases List.mem_cons.mp hc with rfl | hc
        · decide
        · rcases List.mem_append.mp hc with hc | hc
          · exact ne_of_not_ws c (htws c hc)
          · rcases List.mem_cons.mp hc with rfl | hc
            · decide
            · exact ne_of_not_ws c (hva c hc)
    · rcases List.mem_cons.mp hc with rfl | hc
      · decide
      · exact absurd hc (List.not_mem_nil c)
  have hsplit : splitDelim '\n' (render w)
      = (reqLine w ++ ['\r']) ::
          ((w.hdrs.map fun p => headerLineOf p ++ ['\r']) ++
            (['\r'] :: splitDelim '\n' w.body)) := by
    unfold render
    rw [List.append_assoc]
    rw [show (['\n'] ++ ((w.hdrs.map renderHeader).flatten ++ ('\r' :: ('\n' :: w.body))) : Str)
        = '\n' :: ((w.hdrs.map renderHeader).flatten ++ ('\r' :: ('\n' :: w.body))) from rfl]
    rw [splitDelim_append_delim '\n' _ _ hnlreq]
    rw [splitHeaders w.hdrs _
      fun q hq => ⟨fun c hc => ((hh q hq).2.1 c hc).2, (hh q hq).2.2⟩]
    rw [splitDelim_cr_crlf]
  have hrne : render w ≠ [] := by
    unfold render
    simp
  have htok : tokens (reqLine w) = [w.method, w.target, w.version] := by
    unfold reqLine
    rw [tokens_append w.method _ hm hmws]
    rw [tokens_append w.target _ htne htws]
    rw [tokens_single w.version hv hva]
  have hql : w.target.takeWhile (· ≠ '?') = w.target :=
    List.takeWhile_eq_self_iff.mpr fun c hc => decide_eq_true (hta c hc).2
  have hmne : w.method.map cToUpper ≠ [] := by
    simpa [List.map_eq_nil_iff] using hm
  have hreq : parse_request_line {} (reqLine w) = .ok (parsedReqLine w, true) := by
    have hq2 : parse_query_parameters (preQueryReq w) w.target = .ok (parsedReqLine w) := by
      simp only [parse_query_parameters]
      rw [hql, if_pos rfl]
      rfl
    have hcond1 : ¬ ((parsedReqLine w).method = [] ∨ (parsedReqLine w).path = []
        ∨ (parsedReqLine w).version = []) := by
      push_neg
      exact ⟨hmne, htne, hv⟩
    have hcond2 : ¬ ((parsedReqLine w).path.head? ≠ some '/') := not_not_intro hth
    unfold parse_request_line
    rw [htok]
    show (parse_query_parameters (preQueryReq w) w.target >>=
      fun r2 =>
        if r2.method = [] ∨ r2.path = [] ∨ r2.version = [] then Except.ok (r2, false)
        else if r2.path.head? ≠ some '/' then Except.ok (r2, false)
        else Except.ok (r2, true)) = _
    rw [hq2]
    show (if (parsedReqLine w).method = [] ∨ (parsedReqLine w).path = []
          ∨ (parsedReqLine w).version = []
        then Except.ok (parsedReqLine w, false)
        else if (parsedReqLine w).path.head? ≠ some '/'
        then Except.ok (parsedReqLine w, false)
        else Except.ok (parsedReqLine w, true)) = _
    rw [if_neg hcond1, if_neg hcond2]
  obtain ⟨r3, hloop, h3m, h3p, h3v, h3k⟩ :=
    parseHeaderLoop_wf w.hdrs (['\r'] :: splitDelim '\n' w.body) (parsedReqLine w)
      fun q hq => ⟨(hh q hq).1, fun c hc => ((hh q hq).2.1 c hc).1⟩
  have hblank : parseHeaderLoop r3 (['\r'] :: splitDelim '\n' w.body)
      = setValid { r3 with body := joinLines (splitDelim '\n' w.body) } :=
    parseHeaderLoop_cons_blank r3 _ _ (by decide)
  have e1 : r3.method ≠ [] := by
    rw [h3m]
    exact hmne
  have e2 : r3.path ≠ [] := by
    rw [h3p]
    exact htne
  have e3 : r3.version ≠ [] := by
    rw [h3v]
    exact hv
  have hset := setValid_of_nonempty
    { r3 with body := joinLines (splitDelim '\n' w.body) } e1 e2 e3
  refine ⟨{ r3 with body := joinLines (splitDelim '\n' w.body), valid := true },
    ?_, ?_, ?_, ?_⟩
  · unfold HttpRequest.parse
    rw [if_neg hrne, hsplit]
    show (parse_request_line {} (stripCR (reqLine w ++ ['\r'])) >>= fun x =>
      match x with
      | (r1, ok) =>
        if ok then
          Except.ok (parseHeaderLoop r1
            ((w.hdrs.map fun p => headerLineOf p ++ ['\r']) ++
              (['\r'] :: splitDelim '\n' w.body)))
        else Except.ok (r1, false)) = _
    rw [stripCR_concat, hreq]
    show Except.ok (parseHeaderLoop (parsedReqLine w)
        ((w.hdrs.map fun p => headerLineOf p ++ ['\r']) ++
          (['\r'] :: splitDelim '\n' w.body))) = _
    rw [hloop, hblank, hset]
  · intro c hc
    have hc2 : c ∈ r3.method := hc
    rw [h3m] at hc2
    have hc3 : c ∈ w.method.map cToUpper := hc2
    obtain ⟨a, ha, rfl⟩ := List.mem_map.mp hc3
    exact upperAlpha_cToUpper a (hma a ha)
  · show r3.path.head? = some '/'
    rw [h3p]
    exact hth
  · intro kv hkv
    have hkv2 : kv ∈ r3.headers := hkv
    refine h3k ?_ kv hkv2
    intro kv0 hkv0
    have hkv3 : kv0 ∈ ([] : List (Str × Str)) := hkv0
    exact absurd hkv3 (List.not_mem_nil kv0)

/-- C5: for every well-formed HTTP/1.1 request string, `HttpRequest::parse`
succeeds (returns `true`) and afterwards the method consists of uppercase
letters, the path begins with `/`, and every header key is free of
uppercase letters; and for every request whose header section contains a
malformed header line (no colon, or an empty space-trimmed name before
the colon), `parse` fails. -/
theorem http11_codec_correct :
    (∀ w : WFRequest, WellFormed w →
      ∃ r, HttpRequest.parse (render w) = .ok (r, true) ∧
        (∀ c ∈ r.method, upperAlpha c = true) ∧
        r.path.head? = some '/' ∧
        ∀ kv ∈ r.headers, ∀ c ∈ kv.1, upperAlpha c = false) ∧
    (∀ raw : Str, (∃ l ∈ headerSection raw, malformedHeaderLine l) →
      ∀ r : HttpRequest, HttpRequest.parse raw ≠ .ok (r, true)) := by
  constructor
  · exact c5_success
  · intro raw hbad r hok
    unfold HttpRequest.parse at hok
    split at hok
    · have hb : (false : Bool) = true := congrArg Prod.snd (Except.ok.inj hok)
      exact absurd hb (by decide)
    · rcases hsp : splitDelim '\n' raw with _ | ⟨line, rest⟩
      · rw [hsp] at hok
        have hset : setValid ({} : HttpRequest) = ({}, false) := by decide
        rw [hset] at hok
        have hb : (false : Bool) = true := congrArg Prod.snd (Except.ok.inj hok)
        exact absurd hb (by decide)
      · rw [hsp] at hok
        obtain ⟨x, hx, hfx⟩ := exceptBind_ok hok
        rcases x with ⟨r1, ok1⟩
        cases ok1 with
        | false =>
          have hfx2 : Except.ok (ε := Unit) (r1, false) = Except.ok (r, true) := hfx
          have hb : (false : Bool) = true := congrArg Prod.snd (Except.ok.inj hfx2)
          exact absurd hb (by decide)
        | true =>
          have hloop : parseHeaderLoop r1 rest = (r, true) := by
            have hfx2 : Except.ok (ε := Unit) (parseHeaderLoop r1 rest)
                = Except.ok (r, true) := hfx
            exact Except.ok.inj hfx2
          have hbad2 : ∃ l ∈ rest.takeWhile (fun l => !(stripCR l).isEmpty),
              malformedHeaderLine l := by
            unfold headerSection at hbad
            rw [hsp] at hbad
            exact hbad
          have hfalse := parseHeaderLoop_malformed rest r1 hbad2
          rw [hloop] at hfalse
          have hb : (true : Bool) = false := hfalse
          exact absurd hb (by decide)

/-- Closed witness for C5: a concrete well-formed request parses
successfully with uppercase method, `/`-rooted path and lowercase header
keys, and a concrete request with a colon-free header line is rejected. -/
theorem http11_codec_correct_witness :
    (∃ r, HttpRequest.parse (render wfSample) = .ok (r, true) ∧
      (∀ c ∈ r.method, upperAlpha c = true) ∧
      r.path.head? = some '/' ∧
      ∀ kv ∈ r.headers, ∀ c ∈ kv.1, upperAlpha c = false) ∧
    ∀ r : HttpRequest, HttpRequest.parse badHeaderRaw ≠ .ok (r, true) :=
  ⟨http11_codec_correct.1 wfSample (by unfold WellFormed; decide),
   fun r => http11_codec_correct.2 badHeaderRaw
     ⟨"nocolon\r".toList, by decide, by unfold malformedHeaderLine; decide⟩ r⟩

end WebServerModel
